import Mathlib

/-!
# smallchat relay: a shallow embedding of the broadcast loop

The repository holds two versions of the same select(2) chat relay:

* smallchat_server.cpp : classes Client / ChatManagement (raw pointers, the
  traversal is written inline in ChatManagement::run);
* smallchat_server.cc  : classes Client / ChatManager (unique_ptr, the same
  traversal is split into processRead, setNick and sendMsgToClients).

Modelling choices.

* A char is a natural number (its byte value); a std::string and a char array
  are lists of bytes.  String literals are spelled as byte lists, with the text
  in the comment next to them.
* The network is a parameter: what accept(2), read(2) and write(2) return and
  which descriptors select(2) reported readable.
* Every system call the relay issues on a client descriptor is recorded as an
  Event, in program order.  Console output (std::cout / std::cerr) is not
  recorded.
* substr is range checked: a substr past the end is a Fault.
* The terminator store buffer[bytesRead] = 0 is modelled twice.  store,
  terminate, visit, traverse and pass carry the bounds check as an obligation:
  a store outside the array is a Fault, and the run is not followed further.
  storeUnchecked, terminateUnchecked, visitUnchecked, traverseUnchecked and
  passUnchecked perform the store as the source writes it, on the array
  together with the memory behind it, and follow the run to its end.  The two
  agree wherever the obligation holds (visit_agrees, traverse_agrees).
-/

namespace SmallChat

/-! ## Bytes, C strings and the std::string operations that are used -/

/-- Size of the read buffer: MAX_BUFFER in smallchat_server.cc, the literal
1024 of char buffer[1024] in smallchat_server.cpp. -/
def MAX_BUFFER : Nat := 1024

/-- Ways in which a run leaves defined behaviour. -/
inductive Fault
  | outOfBounds
  | outOfRange
  | outOfFuel
deriving DecidableEq, Repr

deriving instance DecidableEq for Except

/-- The literal "/nick " (6 bytes). -/
def NICK_CMD : List Nat := [47, 110, 105, 99, 107, 32]

/-- The literal " > " (3 bytes). -/
def SEP : List Nat := [32, 62, 32]

/-- The literal "User:" (5 bytes). -/
def USER : List Nat := [85, 115, 101, 114, 58]

/-- First half of both welcome literals: "Welcome to Simple Chat! ". -/
def WELCOME_HEAD : List Nat :=
  [87, 101, 108, 99, 111, 109, 101, 32, 116, 111, 32, 83, 105, 109, 112, 108, 101, 32,
   67, 104, 97, 116, 33, 32]

/-- The byte count strlen reports for a char array: bytes before the first zero. -/
def strlen (mem : List Nat) : Nat := (mem.takeWhile (fun b => b != 0)).length

/-- The char array behind std::string::c_str(): the content and a zero byte. -/
def c_str (s : List Nat) : List Nat := s ++ [0]

/-- Construction std::string msg{buffer} from a char array: the bytes before
the first zero byte.  An array without a zero byte would be read past its end. -/
def stringOfBuffer (buffer : List Nat) : Except Fault (List Nat) :=
  if 0 ∈ buffer then .ok (buffer.takeWhile (fun b => b != 0)) else .error .outOfBounds

/-- The assignment buffer[i] = v on a char array, bounds checked. -/
def store (buffer : List Nat) (i : Int) (v : Nat) : Except Fault (List Nat) :=
  if 0 ≤ i ∧ i.toNat < buffer.length then .ok (buffer.set i.toNat v) else .error .outOfBounds

/-- Value std::string::npos on a 64-bit target. -/
def npos : Nat := 2 ^ 64 - 1

/-- Search of std::string::find: the first position at or after pos (counted
from the start of the whole string) where pat occurs in the remaining text. -/
def findFrom (pat : List Nat) : List Nat → Nat → Nat
  | [], pos => if pat.isPrefixOf [] then pos else npos
  | c :: s, pos => if pat.isPrefixOf (c :: s) then pos else findFrom pat s (pos + 1)

/-- Call s.find(pat): position of the first occurrence of pat in s, or npos. -/
def find (s pat : List Nat) : Nat := findFrom pat s 0

/-- Call s.substr(pos): the text from pos on; std::out_of_range past the end. -/
def substr (s : List Nat) (pos : Nat) : Except Fault (List Nat) :=
  if pos > s.length then .error .outOfRange else .ok (s.drop pos)

/-- Decimal digits of n, most significant first, as ASCII bytes. -/
def digitsFuel : Nat → Nat → List Nat
  | 0, _ => []
  | fuel + 1, n => if n < 10 then [48 + n] else digitsFuel fuel (n / 10) ++ [48 + n % 10]

/-- Decimal text of a natural number. -/
def natToString (n : Nat) : List Nat := digitsFuel (n + 1) n

/-- Function std::to_string(int): decimal text, with a leading minus sign (45)
for a negative value. -/
def to_string (n : Int) : List Nat :=
  if n < 0 then 45 :: natToString n.natAbs else natToString n.toNat

/-! ## Client -/

/-- Class Client of both files: the socket and the nick. -/
structure Client where
  clientSocket : Int
  nick : List Nat
deriving DecidableEq, Repr

/-- System calls issued on a client descriptor. -/
inductive Event
  | read (fd : Int)
  | write (fd : Int) (data : List Nat)
  | close (fd : Int)
deriving DecidableEq, Repr

/-- What read(2) finds on a descriptor: an error (read returns -1) or the bytes
queued on the connection (none queued on a readable descriptor: end of stream,
read returns 0). -/
inductive Pending
  | error
  | bytes (data : List Nat)
deriving DecidableEq, Repr

namespace Client

/-- Constructor Client(int socket): nick = "User:" + std::to_string(socket). -/
def new (socket : Int) : Client :=
  { clientSocket := socket, nick := USER ++ to_string socket }

/-- Accessor getSocket. -/
def getSocket (c : Client) : Int := c.clientSocket

/-- Accessor getNick. -/
def getNick (c : Client) : List Nat := c.nick

/-- Member setNick: replaces the nick. -/
def setNick (c : Client) (nick : List Nat) : Client := { c with nick := nick }

/-- Member readFrom: read(clientSocket, buffer, bufferSize).  Returns the
result of read and the buffer afterwards: a positive read of k bytes
overwrites buffer[0, k) and leaves the rest of the buffer as it was. -/
def readFrom (pending : Int → Pending) (c : Client) (buffer : List Nat) (bufferSize : Nat) :
    Int × List Nat :=
  match pending c.clientSocket with
  | .error => (-1, buffer)
  | .bytes data =>
    let got := data.take bufferSize
    ((got.length : Int), got ++ buffer.drop got.length)

/-- Member writeTo: write(clientSocket, message, strlen(message)). -/
def writeTo (c : Client) (message : List Nat) : Event :=
  Event.write c.clientSocket (message.take (strlen message))

end Client

/-! ## Message handling (shared by both files) -/

/-- ChatManager::setNick (smallchat_server.cc 152-162), the same loop as
smallchat_server.cpp 182-189: copy msg.substr(6) without CR (13) and LF (10),
then store it as the client's nick. -/
def setNick (msg : List Nat) (client : Client) : Except Fault Client := do
  let rest ← substr msg 6
  let nick := rest.foldl (fun nick c => if c ≠ 13 ∧ c ≠ 10 then nick ++ [c] else nick) []
  pure (client.setNick nick)

/-- ChatManager::sendMsgToClients (smallchat_server.cc 164-172), the same loop
as smallchat_server.cpp 196-200: one writeTo(msg.c_str()) per client whose
socket differs from clientSocket, in registry order. -/
def sendMsgToClients : List Client → Int → List Nat → List Event
  | [], _, _ => []
  | otherClient :: rest, clientSocket, msg =>
    (if otherClient.getSocket ≠ clientSocket then [otherClient.writeTo (c_str msg)] else [])
      ++ sendMsgToClients rest clientSocket msg

/-- Handling of one message msg read from the client at position it
(smallchat_server.cc 194-198, smallchat_server.cpp 181-202): a message with
msg.find("/nick ") == 0 renames the client, any other message is sent to the
other clients with the sender's nick and " > " in front.  Returns the registry
afterwards and the events issued. -/
def processMessage (clients : List Client) (it : Nat) (msg : List Nat) :
    Except Fault (List Client × List Event) :=
  match clients[it]? with
  | none => .error .outOfBounds
  | some c =>
    if find msg NICK_CMD = 0 then do
      let c' ← setNick msg c
      pure (clients.set it c', [])
    else
      pure (clients, sendMsgToClients clients c.getSocket (c.getNick ++ SEP ++ msg))

/-- Lines 191-193 of smallchat_server.cc (178-180 of smallchat_server.cpp):
buffer[bytesRead] = 0, then std::string msg{buffer}.  Returns the message and
the buffer afterwards. -/
def terminate (buffer : List Nat) (bytesRead : Int) : Except Fault (List Nat × List Nat) := do
  let buffer' ← store buffer bytesRead 0
  let msg ← stringOfBuffer buffer'
  pure (msg, buffer')

/-- One turn of the traversal for the client at position it
(smallchat_server.cc 182-200, smallchat_server.cpp 163-206), with the bounds
check on the terminator store.  Returns the registry, the next position, the
buffer and the events of this turn. -/
def visit (ready : Int → Bool) (pending : Int → Pending) (clients : List Client) (it : Nat)
    (buffer : List Nat) : Except Fault (List Client × Nat × List Nat × List Event) :=
  match clients[it]? with
  | none => .error .outOfBounds
  | some c =>
    let clientSocket := c.getSocket
    if ready clientSocket then
      let r := c.readFrom pending buffer MAX_BUFFER
      let bytesRead := r.1
      if bytesRead ≤ 0 then
        pure (clients.eraseIdx it, it, r.2, [Event.read clientSocket, Event.close clientSocket])
      else do
        let (msg, buffer') ← terminate r.2 bytesRead
        let (clients', writes) ← processMessage clients it msg
        pure (clients', it + 1, buffer', Event.read clientSocket :: writes)
    else
      pure (clients, it + 1, buffer, [])

/-- The traversal for (auto it = clients.begin(); it != clients.end();) of
both files, from position it on, with the bounds check on the terminator
store.  Returns the registry, the buffer and the events. -/
def traverse (ready : Int → Bool) (pending : Int → Pending) :
    Nat → List Client → Nat → List Nat → Except Fault (List Client × List Nat × List Event)
  | 0, clients, it, buffer =>
    if it < clients.length then .error .outOfFuel else pure (clients, buffer, [])
  | fuel + 1, clients, it, buffer =>
    if it < clients.length then do
      let (clients', it', buffer', events) ← visit ready pending clients it buffer
      let (clients'', buffer'', events') ← traverse ready pending fuel clients' it' buffer'
      pure (clients'', buffer'', events ++ events')
    else
      pure (clients, buffer, [])

/-- One pass over the registry, with the bounds check on the terminator store:
the traversal from clients.begin().  Each turn either erases a client or
advances, so clients.size() turns are enough. -/
def pass (ready : Int → Bool) (pending : Int → Pending) (clients : List Client)
    (buffer : List Nat) : Except Fault (List Client × List Nat × List Event) :=
  traverse ready pending clients.length clients 0 buffer

/-! ## The traversal with the terminator store as written

The source performs buffer[bytesRead] = 0 with no bounds check.  The
definitions above carry the check as an obligation (store); the definitions
below run the store as it is written, on the memory that starts at the buffer:
the MAX_BUFFER bytes of the array followed by the bytes that lie behind it.  A
read of MAX_BUFFER bytes then puts the terminator into the first byte behind
the array and the traversal carries on.  What that byte belonged to is outside
the model. -/

/-- The assignment buffer[i] = v as the source performs it, with no bounds
check, on the memory that starts at the buffer. -/
def storeUnchecked (mem : List Nat) (i : Int) (v : Nat) : List Nat := mem.set i.toNat v

/-- Lines 191-193 of smallchat_server.cc (178-180 of smallchat_server.cpp) with
the store as written: buffer[bytesRead] = 0, then std::string msg{buffer},
which reads from the start of the buffer up to the first zero byte.  Returns
the message and the memory afterwards. -/
def terminateUnchecked (mem : List Nat) (bytesRead : Int) :
    Except Fault (List Nat × List Nat) := do
  let mem' := storeUnchecked mem bytesRead 0
  let msg ← stringOfBuffer mem'
  pure (msg, mem')

/-- One turn of the traversal for the client at position it
(smallchat_server.cc 182-200, smallchat_server.cpp 163-206), with the store as
written.  Returns the registry, the next position, the memory and the events
of this turn. -/
def visitUnchecked (ready : Int → Bool) (pending : Int → Pending) (clients : List Client)
    (it : Nat) (mem : List Nat) : Except Fault (List Client × Nat × List Nat × List Event) :=
  match clients[it]? with
  | none => .error .outOfBounds
  | some c =>
    let clientSocket := c.getSocket
    if ready clientSocket then
      let r := c.readFrom pending mem MAX_BUFFER
      let bytesRead := r.1
      if bytesRead ≤ 0 then
        pure (clients.eraseIdx it, it, r.2, [Event.read clientSocket, Event.close clientSocket])
      else do
        let (msg, mem') ← terminateUnchecked r.2 bytesRead
        let (clients', writes) ← processMessage clients it msg
        pure (clients', it + 1, mem', Event.read clientSocket :: writes)
    else
      pure (clients, it + 1, mem, [])

/-- The traversal for (auto it = clients.begin(); it != clients.end();) of
both files, from position it on, with the store as written. -/
def traverseUnchecked (ready : Int → Bool) (pending : Int → Pending) :
    Nat → List Client → Nat → List Nat → Except Fault (List Client × List Nat × List Event)
  | 0, clients, it, mem =>
    if it < clients.length then .error .outOfFuel else pure (clients, mem, [])
  | fuel + 1, clients, it, mem =>
    if it < clients.length then do
      let (clients', it', mem', events) ← visitUnchecked ready pending clients it mem
      let (clients'', mem'', events') ← traverseUnchecked ready pending fuel clients' it' mem'
      pure (clients'', mem'', events ++ events')
    else
      pure (clients, mem, [])

/-- One pass over the registry with the store as written: the traversal from
clients.begin(), with clients.size() turns. -/
def passUnchecked (ready : Int → Bool) (pending : Int → Pending) (clients : List Client)
    (mem : List Nat) : Except Fault (List Client × List Nat × List Event) :=
  traverseUnchecked ready pending clients.length clients 0 mem

/-! ## smallchat_server.cc: class ChatManager -/

/-- Fields of ChatManager (smallchat_server.cc 59-61). -/
structure ChatManager where
  serverSocket_ : Int
  maxClient_ : Int
  clients_ : List Client
deriving DecidableEq, Repr

namespace ChatManager

/-- The literal welcome_msg of smallchat_server.cc 121-123:
"Welcome to Simple Chat! " "Use /nick <nick> to set your nick_.\n". -/
def welcome_msg : List Nat :=
  WELCOME_HEAD ++
  [85, 115, 101, 32, 47, 110, 105, 99, 107, 32, 60, 110, 105, 99, 107, 62, 32, 116, 111, 32,
   115, 101, 116, 32, 121, 111, 117, 114, 32, 110, 105, 99, 107, 95, 46, 10]

/-- ChatManager::acceptClient (smallchat_server.cc 105-131).  accepted is what
accept(2) returned, written what the write(2) of the welcome text returned.
When the write returns -1 the function returns before push_back, and the
unique_ptr going out of scope runs the Client destructor, which closes the
socket. -/
def acceptClient (m : ChatManager) (accepted written : Int) : ChatManager × List Event :=
  let clientSocket := accepted
  if clientSocket = -1 then (m, [])
  else
    let m1 := if clientSocket > m.maxClient_ then { m with maxClient_ := clientSocket } else m
    let client := Client.new clientSocket
    let sent := client.writeTo (c_str welcome_msg)
    if written = -1 then (m1, [sent, Event.close clientSocket])
    else ({ m1 with clients_ := m1.clients_ ++ [client] }, [sent])

/-- ChatManager::processRead (smallchat_server.cc 174-202): accept when the
server socket is readable, then one pass with a zeroed buffer, under the
bounds check on the terminator store. -/
def processRead (m : ChatManager) (ready : Int → Bool) (accepted written : Int)
    (pending : Int → Pending) : Except Fault (ChatManager × List Event) :=
  let a := if ready m.serverSocket_ then m.acceptClient accepted written else (m, [])
  match pass ready pending a.1.clients_ (List.replicate MAX_BUFFER 0) with
  | .error e => .error e
  | .ok r => .ok ({ a.1 with clients_ := r.1 }, a.2 ++ r.2.2)

end ChatManager

/-! ## smallchat_server.cpp: class ChatManagement -/

/-- Fields of ChatManagement (smallchat_server.cpp 60-63). -/
structure ChatManagement where
  serverSocket : Int
  maxClient : Int
  clientCount : Int
  clients : List Client
deriving DecidableEq, Repr

namespace ChatManagement

/-- The literal welcome_msg of smallchat_server.cpp 119-121:
"Welcome to Simple Chat! " "Use /nick <nick> to set your nick.\n". -/
def welcome_msg : List Nat :=
  WELCOME_HEAD ++
  [85, 115, 101, 32, 47, 110, 105, 99, 107, 32, 60, 110, 105, 99, 107, 62, 32, 116, 111, 32,
   115, 101, 116, 32, 121, 111, 117, 114, 32, 110, 105, 99, 107, 46, 10]

/-- ChatManagement::acceptClient (smallchat_server.cpp 101-125).  accepted is
what accept(2) returned; Client::writeTo returns void here, so the result of
the write of the welcome text is never looked at. -/
def acceptClient (m : ChatManagement) (accepted : Int) : ChatManagement × List Event :=
  let clientSocket := accepted
  if clientSocket = -1 then (m, [])
  else
    let m1 := if clientSocket > m.maxClient then { m with maxClient := clientSocket } else m
    let m2 := { m1 with clientCount := m1.clientCount + 1 }
    let client := Client.new clientSocket
    let sent := client.writeTo (c_str welcome_msg)
    ({ m2 with clients := m2.clients ++ [client] }, [sent])

/-- Number of close events in a trace. -/
def closes (events : List Event) : Nat :=
  (events.filter (fun e => match e with | .close _ => true | _ => false)).length

/-- One turn of the while loop of ChatManagement::run after select returned a
positive count (smallchat_server.cpp 158-207): accept when the server socket
is readable, then one pass with the buffer the earlier turns left behind,
under the bounds check on the terminator store; clientCount goes down by one
for every client closed. -/
def iteration (m : ChatManagement) (buffer : List Nat) (ready : Int → Bool) (accepted : Int)
    (pending : Int → Pending) : Except Fault (ChatManagement × List Nat × List Event) :=
  let a := if ready m.serverSocket then m.acceptClient accepted else (m, [])
  match pass ready pending a.1.clients buffer with
  | .error e => .error e
  | .ok r =>
    .ok ({ a.1 with clients := r.1, clientCount := a.1.clientCount - (closes r.2.2 : Int) },
      r.2.1, a.2 ++ r.2.2)

end ChatManagement

end SmallChat

namespace SmallChat

/-! ## Vocabulary of the statements -/

/-- The bytes of an ASCII text, to read the byte lists of the model against. -/
def text (s : String) : List Nat := s.toList.map Char.toNat

/-- A string without a zero byte: every std::string the relay builds is one. -/
def NoNul (s : List Nat) : Prop := ∀ b ∈ s, b ≠ 0

instance (s : List Nat) : Decidable (NoNul s) := by
  unfold NoNul; infer_instance

/-- Reads a run of ASCII digits back as a number. -/
def valueOf (s : List Nat) : Nat := s.foldl (fun a d => 10 * a + (d - 48)) 0

/-- Reads decimal text with an optional leading minus sign back as an integer. -/
def parseInt : List Nat → Int
  | 45 :: t => - (valueOf t : Int)
  | t => (valueOf t : Int)

/-- The bytes of s that are neither CR (13) nor LF (10), in order. -/
def strip (s : List Nat) : List Nat := s.filter (fun c => decide (c ≠ 13 ∧ c ≠ 10))

/-- Result of read(2) with a buffer of MAX_BUFFER bytes on descriptor fd. -/
def readCount (pending : Int → Pending) (fd : Int) : Int :=
  match pending fd with
  | .error => -1
  | .bytes data => ((data.take MAX_BUFFER).length : Int)

/-- The bytes read(2) delivers on descriptor fd (none on error or end of stream). -/
def readBytes (pending : Int → Pending) (fd : Int) : List Nat :=
  match pending fd with
  | .error => []
  | .bytes data => data.take MAX_BUFFER

/-- What a pass leaves of client c: nothing when c was readable and its read
returned no byte; c with the nick of its rename command when it sent one;
c itself otherwise. -/
def survivor (ready : Int → Bool) (pending : Int → Pending) (c : Client) : Option Client :=
  if ready c.clientSocket then
    if readCount pending c.clientSocket ≤ 0 then none
    else
      let msg := (readBytes pending c.clientSocket).takeWhile (fun b => b != 0)
      if NICK_CMD <+: msg then some (c.setNick (strip (msg.drop 6))) else some c
  else some c

/-- Every readable client of the list has fewer than MAX_BUFFER bytes queued. -/
def ShortReads (ready : Int → Bool) (pending : Int → Pending) (clients : List Client) : Prop :=
  ∀ c ∈ clients, ready c.clientSocket = true →
    ∀ data, pending c.clientSocket = .bytes data → data.length < MAX_BUFFER

/-- A readable client with at least MAX_BUFFER bytes queued. -/
def FullRead (ready : Int → Bool) (pending : Int → Pending) (c : Client) : Prop :=
  ready c.clientSocket = true ∧
    ∃ data, pending c.clientSocket = .bytes data ∧ MAX_BUFFER ≤ data.length

/-- The descriptor of a read event. -/
def readFd : Event → Option Int
  | .read fd => some fd
  | _ => none

/-- The descriptor of a close event. -/
def closeFd : Event → Option Int
  | .close fd => some fd
  | _ => none

/-- Between an earlier event a and a later event b: b is not a write to a
descriptor that a closed. -/
def NoWriteAfterClose (a b : Event) : Prop :=
  ∀ fd, a = Event.close fd → ∀ data, b ≠ Event.write fd data

end SmallChat

namespace SmallChat

/-! ## Lemmas on C strings -/

theorem take_strlen (m : List Nat) : m.take (strlen m) = m.takeWhile (fun b => b != 0) := by
  induction m with
  | nil => rfl
  | cons a t ih =>
    by_cases h : a = 0
    · subst h; simp [strlen]
    · have : (a != 0) = true := by simpa using h
      simp [strlen, List.takeWhile_cons, this] at ih ⊢
      exact ih

theorem takeWhile_append_zero (s t : List Nat) :
    (s ++ 0 :: t).takeWhile (fun b => b != 0) = s.takeWhile (fun b => b != 0) := by
  induction s with
  | nil => simp
  | cons a s ih =>
    by_cases h : a = 0
    · subst h; simp
    · have : (a != 0) = true := by simpa using h
      simp [List.takeWhile_cons, this, ih]

theorem takeWhile_noNul (s : List Nat) (h : NoNul s) :
    s.takeWhile (fun b => b != 0) = s := by
  rw [List.takeWhile_eq_self_iff]
  intro b hb
  simpa using h b hb

theorem noNul_takeWhile (s : List Nat) : NoNul (s.takeWhile (fun b => b != 0)) := by
  intro b hb
  simpa using List.mem_takeWhile_imp hb

theorem noNul_append {s t : List Nat} (hs : NoNul s) (ht : NoNul t) : NoNul (s ++ t) := by
  intro b hb
  rcases List.mem_append.1 hb with h | h
  · exact hs b h
  · exact ht b h

/-- What writeTo(s.c_str()) puts on the wire: s up to its first zero byte. -/
theorem writeTo_c_str (c : Client) (s : List Nat) :
    c.writeTo (c_str s) = Event.write c.clientSocket (s.takeWhile (fun b => b != 0)) := by
  unfold Client.writeTo c_str
  rw [take_strlen, takeWhile_append_zero]

theorem writeTo_c_str_noNul (c : Client) (s : List Nat) (h : NoNul s) :
    c.writeTo (c_str s) = Event.write c.clientSocket s := by
  rw [writeTo_c_str, takeWhile_noNul s h]

end SmallChat

namespace SmallChat

/-! ## Lemmas on find, substr and the rename loop -/

theorem findFrom_pos_ne_zero (pat s : List Nat) (pos : Nat) (h : 0 < pos) :
    findFrom pat s pos ≠ 0 := by
  induction s generalizing pos with
  | nil =>
    unfold findFrom
    split
    · omega
    · unfold npos; decide
  | cons c s ih =>
    unfold findFrom
    split
    · omega
    · exact ih (pos + 1) (by omega)

/-- The test msg.find(pat) == 0 holds exactly when msg starts with pat. -/
theorem find_eq_zero_iff (msg pat : List Nat) : find msg pat = 0 ↔ pat <+: msg := by
  unfold find
  cases msg with
  | nil =>
    unfold findFrom
    by_cases h : pat.isPrefixOf [] = true
    · simp only [h, if_true, true_iff]
      exact List.isPrefixOf_iff_prefix.1 h
    · simp only [h, if_false]
      constructor
      · intro h0; exact absurd h0 (by unfold npos; decide)
      · intro hp; exact absurd (List.isPrefixOf_iff_prefix.2 hp) h
  | cons c s =>
    unfold findFrom
    by_cases h : pat.isPrefixOf (c :: s) = true
    · simp only [h, if_true, true_iff]
      exact List.isPrefixOf_iff_prefix.1 h
    · simp only [h, if_false]
      constructor
      · intro h0; exact absurd h0 (findFrom_pos_ne_zero pat s 1 (by omega))
      · intro hp; exact absurd (List.isPrefixOf_iff_prefix.2 hp) h

/-- A message starts with "/nick " exactly when it has at least six bytes and
the first six are the literal. -/
theorem nick_prefix_iff (msg : List Nat) :
    NICK_CMD <+: msg ↔ 6 ≤ msg.length ∧ msg.take 6 = NICK_CMD := by
  constructor
  · rintro ⟨t, rfl⟩
    simp [NICK_CMD]
  · rintro ⟨_, h⟩
    rw [← h]
    exact List.take_prefix 6 msg

/-- The rename loop keeps exactly the bytes that are neither CR nor LF. -/
theorem strip_foldl (rest acc : List Nat) :
    rest.foldl (fun nick c => if c ≠ 13 ∧ c ≠ 10 then nick ++ [c] else nick) acc
      = acc ++ rest.filter (fun c => decide (c ≠ 13 ∧ c ≠ 10)) := by
  induction rest generalizing acc with
  | nil => simp
  | cons c rest ih =>
    rw [List.foldl_cons, ih]
    by_cases h : c ≠ 13 ∧ c ≠ 10
    · simp [h, List.filter_cons]
    · simp [h, List.filter_cons]

theorem setNick_eq (msg : List Nat) (client : Client) (h : 6 ≤ msg.length) :
    setNick msg client
      = .ok (client.setNick ((msg.drop 6).filter (fun c => decide (c ≠ 13 ∧ c ≠ 10)))) := by
  unfold setNick substr
  have : ¬ 6 > msg.length := by omega
  simp only [this, if_false]
  show Except.ok _ = _
  rw [strip_foldl]
  simp

end SmallChat

namespace SmallChat

/-! ## Lemmas on the broadcast loop -/

theorem sendMsgToClients_eq (clients : List Client) (clientSocket : Int) (msg : List Nat) :
    sendMsgToClients clients clientSocket msg
      = (clients.filter (fun o => decide (o.clientSocket ≠ clientSocket))).map
          (fun o => Event.write o.clientSocket (msg.takeWhile (fun b => b != 0))) := by
  induction clients with
  | nil => rfl
  | cons o rest ih =>
    unfold sendMsgToClients
    rw [ih, writeTo_c_str]
    by_cases h : o.clientSocket = clientSocket
    · simp [Client.getSocket, h, List.filter_cons]
    · simp [Client.getSocket, h, List.filter_cons]

/-- In a registry with pairwise distinct sockets, the clients whose socket
differs from that of the client at position i are all clients but that one. -/
theorem filter_ne_socket_eq_eraseIdx (clients : List Client) (i : Nat) (c : Client)
    (hnd : (clients.map Client.clientSocket).Nodup) (hc : clients[i]? = some c) :
    clients.filter (fun o => decide (o.clientSocket ≠ c.clientSocket)) = clients.eraseIdx i := by
  induction clients generalizing i with
  | nil => simp at hc
  | cons o rest ih =>
    rw [List.map_cons, List.nodup_cons] at hnd
    cases i with
    | zero =>
      simp only [List.getElem?_cons_zero, Option.some.injEq] at hc
      subst hc
      rw [List.eraseIdx_cons_zero, List.filter_cons]
      simp only [ne_eq, not_true_eq_false, decide_False, Bool.false_eq_true, if_false]
      rw [List.filter_eq_self]
      intro a ha
      have : a.clientSocket ≠ o.clientSocket := by
        intro h
        exact hnd.1 (h ▸ List.mem_map_of_mem _ ha)
      simpa using this
    | succ j =>
      simp only [List.getElem?_cons_succ] at hc
      have hmem : c ∈ rest := List.getElem?_mem hc
      have hne : o.clientSocket ≠ c.clientSocket := by
        intro h
        exact hnd.1 (h ▸ List.mem_map_of_mem _ hmem)
      rw [List.eraseIdx_cons_succ, List.filter_cons]
      simp only [ne_eq, hne, not_false_eq_true, decide_True, if_true]
      rw [ih j hnd.2 hc]

end SmallChat

namespace SmallChat

/-! ## Message level: chat lines and rename commands -/

theorem processMessage_chat (clients : List Client) (i : Nat) (S : Client) (msg : List Nat)
    (hS : clients[i]? = some S) (hchat : ¬ NICK_CMD <+: msg) :
    processMessage clients i msg
      = .ok (clients, sendMsgToClients clients S.clientSocket (S.nick ++ SEP ++ msg)) := by
  unfold processMessage
  rw [hS]
  have : ¬ find msg NICK_CMD = 0 := fun h => hchat ((find_eq_zero_iff _ _).1 h)
  simp only [this, if_false]
  rfl

theorem processMessage_rename (clients : List Client) (i : Nat) (S : Client) (msg : List Nat)
    (hS : clients[i]? = some S) (hren : NICK_CMD <+: msg) :
    processMessage clients i msg
      = .ok (clients.set i
          (S.setNick ((msg.drop 6).filter (fun c => decide (c ≠ 13 ∧ c ≠ 10)))), []) := by
  unfold processMessage
  rw [hS]
  have h0 : find msg NICK_CMD = 0 := (find_eq_zero_iff _ _).2 hren
  have h6 : 6 ≤ msg.length := ((nick_prefix_iff msg).1 hren).1
  simp only [h0, if_true]
  rw [setNick_eq msg S h6]
  rfl

theorem noNul_SEP : NoNul SEP := by decide

theorem noNul_filter {s : List Nat} (p : Nat → Bool) (h : NoNul s) : NoNul (s.filter p) :=
  fun b hb => h b (List.mem_of_mem_filter hb)

theorem noNul_drop {s : List Nat} (n : Nat) (h : NoNul s) : NoNul (s.drop n) :=
  fun b hb => h b (List.mem_of_mem_drop hb)

theorem takeWhile_prefix_noNul (p s : List Nat) (hp : NoNul p) :
    (p ++ s).takeWhile (fun b => b != 0) = p ++ s.takeWhile (fun b => b != 0) := by
  induction p with
  | nil => rfl
  | cons a p ih =>
    have ha : (a != 0) = true := by simpa using hp a (List.mem_cons_self _ _)
    have hp' : NoNul p := fun b hb => hp b (List.mem_cons_of_mem _ hb)
    simp [List.takeWhile_cons, ha, ih hp']

end SmallChat

namespace SmallChat

/-! ## Lemmas on std::to_string and the default nick -/

theorem valueOf_append_single (l : List Nat) (d : Nat) :
    valueOf (l ++ [d]) = 10 * valueOf l + (d - 48) := by
  simp [valueOf, List.foldl_append]

theorem valueOf_digitsFuel (fuel n : Nat) (h : n < fuel) : valueOf (digitsFuel fuel n) = n := by
  induction fuel generalizing n with
  | zero => omega
  | succ fuel ih =>
    unfold digitsFuel
    by_cases hn : n < 10
    · simp only [hn, if_true]
      simp [valueOf]
    · simp only [hn, if_false]
      rw [valueOf_append_single, ih (n / 10) (by omega)]
      omega

theorem digitsFuel_range (fuel n : Nat) : ∀ b ∈ digitsFuel fuel n, 48 ≤ b ∧ b ≤ 57 := by
  induction fuel generalizing n with
  | zero => intro b hb; simp [digitsFuel] at hb
  | succ fuel ih =>
    intro b hb
    unfold digitsFuel at hb
    by_cases hn : n < 10
    · simp only [hn, if_true, List.mem_singleton] at hb
      omega
    · simp only [hn, if_false, List.mem_append, List.mem_singleton] at hb
      rcases hb with hb | hb
      · exact ih _ b hb
      · omega

theorem digitsFuel_ne_nil (fuel n : Nat) : digitsFuel (fuel + 1) n ≠ [] := by
  unfold digitsFuel
  split <;> simp

theorem parseInt_natToString (n : Nat) : parseInt (natToString n) = (n : Int) := by
  unfold natToString
  have hv := valueOf_digitsFuel (n + 1) n (by omega)
  have hr := digitsFuel_range (n + 1) n
  cases hd : digitsFuel (n + 1) n with
  | nil => exact absurd hd (digitsFuel_ne_nil n n)
  | cons a t =>
    rw [hd] at hv hr
    have ha : a ≠ 45 := by
      have := hr a (List.mem_cons_self _ _)
      omega
    unfold parseInt
    split
    · rename_i t' heq
      injection heq with h1 h2
      exact absurd h1.symm (by omega)
    · rw [hv]

theorem parseInt_to_string (n : Int) : parseInt (to_string n) = n := by
  unfold to_string
  by_cases hn : n < 0
  · simp only [hn, if_true]
    show - (valueOf (natToString n.natAbs) : Int) = n
    have := valueOf_digitsFuel (n.natAbs + 1) n.natAbs (by omega)
    unfold natToString
    rw [this]
    omega
  · simp only [hn, if_false]
    rw [parseInt_natToString]
    omega

theorem to_string_injective : Function.Injective to_string := by
  intro a b h
  have := congrArg parseInt h
  rwa [parseInt_to_string, parseInt_to_string] at this

theorem noNul_to_string (n : Int) : NoNul (to_string n) := by
  intro b hb
  unfold to_string at hb
  split at hb
  · rcases List.mem_cons.1 hb with h | h
    · omega
    · have := digitsFuel_range _ _ b h
      omega
  · have := digitsFuel_range _ _ b hb
    omega

/-- The nick a new client starts with holds no zero byte. -/
theorem noNul_new (socket : Int) : NoNul (Client.new socket).nick :=
  noNul_append (by decide) (noNul_to_string socket)

end SmallChat

namespace SmallChat

/-! ## The terminator store and the message it delimits -/

theorem set_append_length (got rest : List Nat) (a v : Nat) :
    (got ++ a :: rest).set got.length v = got ++ v :: rest := by
  induction got with
  | nil => rfl
  | cons b got ih => simp [ih]

/-- After a read of got (fewer bytes than the buffer holds) the terminator is
stored right behind them, and the message is got up to its first zero byte:
nothing of what an earlier read left behind in the buffer is part of it. -/
theorem terminate_eq (buffer got : List Nat) (h : got.length < buffer.length) :
    terminate (got ++ buffer.drop got.length) (got.length : Int)
      = .ok (got.takeWhile (fun b => b != 0), got ++ 0 :: buffer.drop (got.length + 1)) := by
  have hdrop : buffer.drop got.length = buffer[got.length] :: buffer.drop (got.length + 1) :=
    List.drop_eq_getElem_cons h
  unfold terminate store
  have hb : (0 : Int) ≤ (got.length : Int) ∧
      (got.length : Int).toNat < (got ++ buffer.drop got.length).length := by
    constructor
    · omega
    · simp only [Int.toNat_ofNat, List.length_append, List.length_drop]
      omega
  simp only [hb, and_self, if_true]
  show (do let msg ← stringOfBuffer ((got ++ buffer.drop got.length).set
      (got.length : Int).toNat 0); pure (msg, (got ++ buffer.drop got.length).set
      (got.length : Int).toNat 0)) = _
  rw [Int.toNat_ofNat, hdrop, set_append_length]
  unfold stringOfBuffer
  have hmem : 0 ∈ got ++ 0 :: buffer.drop (got.length + 1) := by simp
  simp only [hmem, if_true]
  rw [takeWhile_append_zero]
  rfl

/-- A read that fills the whole buffer puts the terminator one past its end. -/
theorem terminate_full (buffer : List Nat) :
    terminate buffer (buffer.length : Int) = .error .outOfBounds := by
  unfold terminate store
  have : ¬ ((0 : Int) ≤ (buffer.length : Int) ∧ (buffer.length : Int).toNat < buffer.length) := by
    simp
  simp only [this, if_false]
  rfl

end SmallChat

namespace SmallChat

/-! ## One turn of the traversal -/

theorem getElem?_append_cons_length (pre : List Client) (c : Client) (rest : List Client) :
    (pre ++ c :: rest)[pre.length]? = some c := by
  induction pre with
  | nil => simp
  | cons a pre ih => simpa using ih

theorem eraseIdx_append_cons_length (pre : List Client) (c : Client) (rest : List Client) :
    (pre ++ c :: rest).eraseIdx pre.length = pre ++ rest := by
  induction pre with
  | nil => rfl
  | cons a pre ih => simp [ih]

theorem set_append_cons_length (pre : List Client) (c c' : Client) (rest : List Client) :
    (pre ++ c :: rest).set pre.length c' = pre ++ c' :: rest := by
  induction pre with
  | nil => rfl
  | cons a pre ih => simp [ih]

/-- A client that select did not report is skipped. -/
theorem visit_not_ready (ready : Int → Bool) (pending : Int → Pending) (clients : List Client)
    (it : Nat) (c : Client) (buffer : List Nat) (hc : clients[it]? = some c)
    (hr : ready c.clientSocket = false) :
    visit ready pending clients it buffer = .ok (clients, it + 1, buffer, []) := by
  unfold visit
  rw [hc]
  simp only [Client.getSocket, hr]
  rfl

/-- A readable client whose read returns no byte is closed and erased. -/
theorem visit_closed (ready : Int → Bool) (pending : Int → Pending) (clients : List Client)
    (it : Nat) (c : Client) (buffer : List Nat) (hc : clients[it]? = some c)
    (hr : ready c.clientSocket = true) (h0 : readCount pending c.clientSocket ≤ 0) :
    visit ready pending clients it buffer
      = .ok (clients.eraseIdx it, it, buffer,
          [Event.read c.clientSocket, Event.close c.clientSocket]) := by
  unfold visit
  rw [hc]
  simp only [Client.getSocket, hr, if_true]
  unfold readCount at h0
  unfold Client.readFrom
  cases hp : pending c.clientSocket with
  | error => simp; rfl
  | bytes data =>
    rw [hp] at h0
    simp only at h0
    have hlen : (data.take MAX_BUFFER).length = 0 := by omega
    have hnil : data.take MAX_BUFFER = [] := List.length_eq_zero.1 hlen
    simp only [hnil]
    simp
    rfl

/-- A readable client whose read returns fewer bytes than the buffer holds has
the bytes read, up to the first zero byte, handled as its message. -/
theorem visit_message (ready : Int → Bool) (pending : Int → Pending) (clients : List Client)
    (it : Nat) (c : Client) (buffer data : List Nat) (hc : clients[it]? = some c)
    (hr : ready c.clientSocket = true) (hp : pending c.clientSocket = .bytes data)
    (hpos : data ≠ []) (hlt : data.length < MAX_BUFFER) (hbuf : buffer.length = MAX_BUFFER) :
    visit ready pending clients it buffer
      = (processMessage clients it (data.takeWhile (fun b => b != 0))).map
          (fun r => (r.1, it + 1, data ++ 0 :: buffer.drop (data.length + 1),
            Event.read c.clientSocket :: r.2)) := by
  unfold visit
  rw [hc]
  simp only [Client.getSocket, hr, if_true]
  unfold Client.readFrom
  rw [hp]
  have htake : data.take MAX_BUFFER = data := List.take_of_length_le (by omega)
  simp only [htake]
  have hlen : 0 < data.length := List.length_pos.2 hpos
  have hnot : ¬ ((data.length : Int) ≤ 0) := by omega
  simp only [hnot, if_false]
  rw [terminate_eq buffer data (by omega)]
  cases hpm : processMessage clients it (data.takeWhile (fun b => b != 0)) <;>
    simp [bind, Except.bind, Except.map, hpm, pure, Except.pure]

end SmallChat

namespace SmallChat

/-! ## The whole traversal -/

theorem survivor_socket (ready : Int → Bool) (pending : Int → Pending) (c c' : Client)
    (h : survivor ready pending c = some c') : c'.clientSocket = c.clientSocket := by
  unfold survivor at h
  split at h
  · split at h
    · cases h
    · simp only at h
      split at h
      · cases h; rfl
      · cases h; rfl
  · cases h; rfl

theorem mem_sendMsgToClients (clients : List Client) (clientSocket : Int) (msg : List Nat)
    (e : Event) (he : e ∈ sendMsgToClients clients clientSocket msg) :
    ∃ o ∈ clients, o.clientSocket ≠ clientSocket
      ∧ e = Event.write o.clientSocket (msg.takeWhile (fun b => b != 0)) := by
  rw [sendMsgToClients_eq] at he
  rcases List.mem_map.1 he with ⟨o, ho, rfl⟩
  rw [List.mem_filter] at ho
  exact ⟨o, ho.1, by simpa using ho.2, rfl⟩

/-- The turn for the client c that stands behind the already visited clients
pre: the registry keeps pre and the clients behind c, and c is replaced by
what survives of it. -/
theorem visit_head (ready : Int → Bool) (pending : Int → Pending) (pre : List Client)
    (c : Client) (rest : List Client) (buffer : List Nat) (hbuf : buffer.length = MAX_BUFFER)
    (hshort : ShortReads ready pending [c]) :
    ∃ buffer' events,
      visit ready pending (pre ++ c :: rest) pre.length buffer
        = .ok (pre ++ (survivor ready pending c).toList ++ rest,
            pre.length + (survivor ready pending c).toList.length, buffer', events)
      ∧ buffer'.length = MAX_BUFFER
      ∧ events.filterMap readFd = (if ready c.clientSocket then [c.clientSocket] else [])
      ∧ events.filterMap closeFd
          = (if survivor ready pending c = none then [c.clientSocket] else [])
      ∧ (∀ fd data, Event.write fd data ∈ events →
          fd ∈ (pre ++ c :: rest).map Client.clientSocket ∧ fd ≠ c.clientSocket)
      ∧ (∀ fd, Event.close fd ∉ events ∨ ∀ data, Event.write fd data ∉ events) := by
  have hc := getElem?_append_cons_length pre c rest
  by_cases hr : ready c.clientSocket = true
  · by_cases h0 : readCount pending c.clientSocket ≤ 0
    · have hs : survivor ready pending c = none := by simp [survivor, hr, h0]
      refine ⟨buffer, [Event.read c.clientSocket, Event.close c.clientSocket],
        ?_, hbuf, ?_, ?_, ?_, ?_⟩
      · rw [visit_closed ready pending _ _ c buffer hc hr h0, hs,
          eraseIdx_append_cons_length]
        simp
      · simp [readFd, hr]
      · simp [closeFd, hs]
      · intro fd data h; simp at h
      · intro fd; right; intro data h; simp at h
    · -- a positive read
      have hex : ∃ data, pending c.clientSocket = .bytes data := by
        cases hp : pending c.clientSocket with
        | error => simp [readCount, hp] at h0
        | bytes data => exact ⟨data, rfl⟩
      obtain ⟨data, hp⟩ := hex
      have hlt : data.length < MAX_BUFFER :=
        hshort c (List.mem_singleton.2 rfl) hr data hp
      have htake : data.take MAX_BUFFER = data := List.take_of_length_le (by omega)
      have hpos : data ≠ [] := by
        intro hnil
        apply h0
        simp [readCount, hp, hnil]
      have hbytes : readBytes pending c.clientSocket = data := by
        simp [readBytes, hp, htake]
      have hv := visit_message ready pending _ _ c buffer data hc hr hp hpos hlt hbuf
      have hlen' : (data ++ 0 :: buffer.drop (data.length + 1)).length = MAX_BUFFER := by
        simp only [List.length_append, List.length_cons, List.length_drop]
        omega
      by_cases hren : NICK_CMD <+: data.takeWhile (fun b => b != 0)
      · have hs : survivor ready pending c
            = some (c.setNick (strip ((data.takeWhile (fun b => b != 0)).drop 6))) := by
          simp [survivor, hr, h0, hbytes, hren]
        refine ⟨data ++ 0 :: buffer.drop (data.length + 1), [Event.read c.clientSocket],
          ?_, hlen', ?_, ?_, ?_, ?_⟩
        · rw [hv, processMessage_rename _ _ c _ hc hren, hs, set_append_cons_length]
          simp [Except.map, strip]
        · simp [readFd, hr]
        · simp [closeFd, hs]
        · intro fd d h; simp at h
        · intro fd; left; simp
      · have hs : survivor ready pending c = some c := by
          simp [survivor, hr, h0, hbytes, hren]
        refine ⟨data ++ 0 :: buffer.drop (data.length + 1),
          Event.read c.clientSocket :: sendMsgToClients (pre ++ c :: rest) c.clientSocket
            (c.nick ++ SEP ++ data.takeWhile (fun b => b != 0)),
          ?_, hlen', ?_, ?_, ?_, ?_⟩
        · rw [hv, processMessage_chat _ _ c _ hc hren, hs]
          simp [Except.map]
        · have hnone : ∀ l : List Event, (∀ e ∈ l, ∃ fd d, e = Event.write fd d) →
              l.filterMap readFd = [] := by
            intro l hl
            rw [List.filterMap_eq_nil_iff]
            intro e he
            rcases hl e he with ⟨fd, d, rfl⟩
            rfl
          rw [List.filterMap_cons]
          simp only [readFd, hr, if_true]
          rw [hnone]
          intro e he
          rcases mem_sendMsgToClients _ _ _ e he with ⟨o, _, _, rfl⟩
          exact ⟨_, _, rfl⟩
        · rw [hs]
          simp only [List.filterMap_cons, closeFd]
          rw [if_neg (by simp), List.filterMap_eq_nil_iff]
          intro e he
          rcases mem_sendMsgToClients _ _ _ e he with ⟨o, _, _, rfl⟩
          rfl
        · intro fd d h
          rcases List.mem_cons.1 h with h | h
          · cases h
          · rcases mem_sendMsgToClients _ _ _ _ h with ⟨o, ho, hne, heq⟩
            injection heq with h1 h2
            subst h1
            exact ⟨List.mem_map_of_mem _ ho, hne⟩
        · intro fd; left
          intro h
          rcases List.mem_cons.1 h with h | h
          · cases h
          · rcases mem_sendMsgToClients _ _ _ _ h with ⟨o, _, _, heq⟩
            cases heq
  · have hr' : ready c.clientSocket = false := by simpa using hr
    have hs : survivor ready pending c = some c := by simp [survivor, hr']
    refine ⟨buffer, [], ?_, hbuf, ?_, ?_, ?_, ?_⟩
    · rw [visit_not_ready ready pending _ _ c buffer hc hr', hs]
      simp
    · simp [hr']
    · simp [hs]
    · intro fd d h; simp at h
    · intro fd; left; simp

end SmallChat

namespace SmallChat

theorem traverse_done (ready : Int → Bool) (pending : Int → Pending) (fuel : Nat)
    (clients : List Client) (it : Nat) (buffer : List Nat) (h : ¬ it < clients.length) :
    traverse ready pending fuel clients it buffer = .ok (clients, buffer, []) := by
  cases fuel <;> simp [traverse, h] <;> rfl

theorem traverse_step (ready : Int → Bool) (pending : Int → Pending) (fuel : Nat)
    (clients : List Client) (it : Nat) (buffer : List Nat) (clients' : List Client) (it' : Nat)
    (buffer' : List Nat) (events : List Event) (hit : it < clients.length)
    (hv : visit ready pending clients it buffer = .ok (clients', it', buffer', events)) :
    traverse ready pending (fuel + 1) clients it buffer
      = (traverse ready pending fuel clients' it' buffer').map
          (fun r => (r.1, r.2.1, events ++ r.2.2)) := by
  rw [traverse]
  simp only [hit, if_true, hv]
  cases htr : traverse ready pending fuel clients' it' buffer' <;>
    simp [bind, Except.bind, Except.map, htr, pure, Except.pure]

/-- The traversal from the client behind pre on, with enough fuel, no fault
possible: the registry, the reads, the closes and the writes it produces. -/
theorem traverse_spec (ready : Int → Bool) (pending : Int → Pending) :
    ∀ (suf pre : List Client) (fuel : Nat) (buffer : List Nat),
      suf.length ≤ fuel → buffer.length = MAX_BUFFER → ShortReads ready pending suf →
      ∃ buffer' events,
        traverse ready pending fuel (pre ++ suf) pre.length buffer
          = .ok (pre ++ suf.filterMap (survivor ready pending), buffer', events)
        ∧ buffer'.length = MAX_BUFFER
        ∧ events.filterMap readFd
            = (suf.filter (fun c => ready c.clientSocket)).map Client.clientSocket
        ∧ events.filterMap closeFd
            = (suf.filter (fun c => (survivor ready pending c).isNone)).map Client.clientSocket
        ∧ (∀ fd data, Event.write fd data ∈ events →
            fd ∈ (pre ++ suf).map Client.clientSocket)
        ∧ (((pre ++ suf).map Client.clientSocket).Nodup →
            events.Pairwise NoWriteAfterClose) := by
  intro suf
  induction suf with
  | nil =>
    intro pre fuel buffer _ hbuf _
    refine ⟨buffer, [], ?_, hbuf, rfl, rfl, ?_, ?_⟩
    · rw [traverse_done _ _ _ _ _ _ (by simp)]
      simp
    · intro fd d h; simp at h
    · intro _; exact List.Pairwise.nil
  | cons c rest ih =>
    intro pre fuel buffer hfuel hbuf hshort
    cases fuel with
    | zero => simp at hfuel
    | succ fuel =>
      have hshortc : ShortReads ready pending [c] := by
        intro x hx
        rw [List.mem_singleton] at hx
        subst hx
        exact hshort x (List.mem_cons_self _ _)
      have hshortr : ShortReads ready pending rest :=
        fun x hx => hshort x (List.mem_cons_of_mem _ hx)
      obtain ⟨buf1, ev1, hv, hbuf1, hread1, hclose1, hwrite1, hexcl1⟩ :=
        visit_head ready pending pre c rest buffer hbuf hshortc
      have hlen : pre.length + (survivor ready pending c).toList.length
          = (pre ++ (survivor ready pending c).toList).length := by simp
      obtain ⟨buf2, ev2, htr, hbuf2, hread2, hclose2, hwrite2, hpair2⟩ :=
        ih (pre ++ (survivor ready pending c).toList) fuel buf1
          (by simp at hfuel; omega) hbuf1 hshortr
      have hsub : ((pre ++ (survivor ready pending c).toList ++ rest).map
          Client.clientSocket).Sublist ((pre ++ c :: rest).map Client.clientSocket) := by
        cases hs : survivor ready pending c with
        | none =>
          simp only [Option.toList, List.append_nil]
          exact ((List.sublist_cons_self c rest).append_left pre).map _
        | some c' =>
          have hsock := survivor_socket ready pending c c' hs
          simp [Option.toList, hsock]
      refine ⟨buf2, ev1 ++ ev2, ?_, hbuf2, ?_, ?_, ?_, ?_⟩
      · rw [traverse_step ready pending fuel _ _ _ _ _ _ _ (by simp) hv, hlen, htr]
        cases hs : survivor ready pending c <;> simp [Except.map, hs]
      · rw [List.filterMap_append, hread1, hread2, List.filter_cons]
        by_cases hr : ready c.clientSocket = true <;> simp [hr]
      · rw [List.filterMap_append, hclose1, hclose2, List.filter_cons]
        cases hs : survivor ready pending c <;> simp [hs]
      · intro fd d h
        rcases List.mem_append.1 h with h | h
        · exact (hwrite1 fd d h).1
        · exact hsub.subset (hwrite2 fd d h)
      · intro hnd
        rw [List.pairwise_append]
        refine ⟨?_, hpair2 (hnd.sublist hsub), ?_⟩
        · -- inside one turn there is a close only when there is no write
          apply List.pairwise_of_forall_mem_list
          intro a ha b hb fd hfd d hbd
          subst hfd; subst hbd
          rcases hexcl1 fd with h | h
          · exact h ha
          · exact h d hb
        · intro a ha b hb fd hfd d hbd
          subst hfd; subst hbd
          have hmemc : fd ∈ ev1.filterMap closeFd :=
            List.mem_filterMap.2 ⟨_, ha, rfl⟩
          rw [hclose1] at hmemc
          by_cases hs : survivor ready pending c = none
          · simp only [hs, if_true, List.mem_singleton] at hmemc
            subst hmemc
            have hin := hwrite2 c.clientSocket d hb
            rw [hs] at hin
            simp only [Option.toList, List.append_nil] at hin
            have hnd' := hnd
            rw [List.map_append, List.map_cons, List.nodup_middle, List.nodup_cons] at hnd'
            apply hnd'.1
            rw [← List.map_append]
            exact hin
          · simp [hs] at hmemc

end SmallChat

namespace SmallChat

/-! ## A pass under the bounds check, and the read that fills the buffer -/

/-- A readable client with at least MAX_BUFFER bytes queued: the read fills
the buffer and the terminator store falls outside it, so the bounds check
fails. -/
theorem visit_full (ready : Int → Bool) (pending : Int → Pending) (clients : List Client)
    (it : Nat) (c : Client) (buffer data : List Nat) (hc : clients[it]? = some c)
    (hr : ready c.clientSocket = true) (hp : pending c.clientSocket = .bytes data)
    (hfull : MAX_BUFFER ≤ data.length) (hbuf : buffer.length = MAX_BUFFER) :
    visit ready pending clients it buffer = .error .outOfBounds := by
  unfold visit
  rw [hc]
  simp only [Client.getSocket, hr, if_true]
  unfold Client.readFrom
  rw [hp]
  have hlen : (data.take MAX_BUFFER).length = MAX_BUFFER := by
    rw [List.length_take]; omega
  have hdrop : buffer.drop (data.take MAX_BUFFER).length = [] := by
    rw [hlen]; exact List.drop_of_length_le (by omega)
  simp only [hdrop, List.append_nil]
  have hnot : ¬ (((data.take MAX_BUFFER).length : Int) ≤ 0) := by
    rw [hlen]; unfold MAX_BUFFER; omega
  simp only [hnot, if_false]
  rw [terminate_full]
  rfl

theorem traverse_fault (ready : Int → Bool) (pending : Int → Pending) (fuel : Nat)
    (clients : List Client) (it : Nat) (buffer : List Nat) (f : Fault)
    (hit : it < clients.length)
    (hv : visit ready pending clients it buffer = .error f) :
    traverse ready pending (fuel + 1) clients it buffer = .error f := by
  rw [traverse]
  simp only [hit, if_true, hv]
  rfl

/-- A pass in which every readable client has fewer than MAX_BUFFER bytes
queued: it ends without fault, and its registry and events are these. -/
theorem pass_spec (ready : Int → Bool) (pending : Int → Pending) (clients : List Client)
    (buffer : List Nat) (hbuf : buffer.length = MAX_BUFFER)
    (hshort : ShortReads ready pending clients) :
    ∃ buffer' events,
      pass ready pending clients buffer
        = .ok (clients.filterMap (survivor ready pending), buffer', events)
      ∧ buffer'.length = MAX_BUFFER
      ∧ events.filterMap readFd
          = (clients.filter (fun c => ready c.clientSocket)).map Client.clientSocket
      ∧ events.filterMap closeFd
          = (clients.filter (fun c => (survivor ready pending c).isNone)).map
              Client.clientSocket
      ∧ (∀ fd data, Event.write fd data ∈ events → fd ∈ clients.map Client.clientSocket)
      ∧ ((clients.map Client.clientSocket).Nodup → events.Pairwise NoWriteAfterClose) := by
  simpa [pass] using traverse_spec ready pending clients [] clients.length buffer
    (Nat.le_refl _) hbuf hshort

/-- The sockets a pass keeps, in order: those of the clients that were not
readable or whose read returned a positive count. -/
theorem survivors_sockets (ready : Int → Bool) (pending : Int → Pending)
    (clients : List Client) :
    (clients.filterMap (survivor ready pending)).map Client.clientSocket
      = (clients.filter (fun c => !ready c.clientSocket
          || decide (0 < readCount pending c.clientSocket))).map Client.clientSocket := by
  induction clients with
  | nil => rfl
  | cons c rest ih =>
    rw [List.filterMap_cons, List.filter_cons]
    cases hs : survivor ready pending c with
    | none =>
      have hk : (!ready c.clientSocket || decide (0 < readCount pending c.clientSocket))
          = false := by
        unfold survivor at hs
        by_cases hr : ready c.clientSocket = true
        · by_cases h0 : readCount pending c.clientSocket ≤ 0
          · simp [hr]; omega
          · simp only [hr, if_true, h0, if_false] at hs
            split at hs <;> cases hs
        · simp [hr] at hs
      simp only [hk, ih]
      simp
    | some c' =>
      have hk : (!ready c.clientSocket || decide (0 < readCount pending c.clientSocket))
          = true := by
        unfold survivor at hs
        by_cases hr : ready c.clientSocket = true
        · by_cases h0 : readCount pending c.clientSocket ≤ 0
          · simp [hr, h0] at hs
          · simp [hr]; omega
        · simp [hr]
      simp only [hk, if_true, List.map_cons, ih, survivor_socket ready pending c c' hs]

/-- Pairwise NoWriteAfterClose, spelled out on a trace cut at a close event. -/
theorem no_write_after_close_split (events t₁ t₂ : List Event) (fd : Int)
    (hp : events.Pairwise NoWriteAfterClose) (hsplit : events = t₁ ++ Event.close fd :: t₂) :
    ∀ data, Event.write fd data ∉ t₂ := by
  subst hsplit
  intro data hmem
  have h2 := (List.pairwise_append.1 hp).2.1
  exact (List.rel_of_pairwise_cons h2 hmem) fd rfl data rfl

/-- A message read into the buffer starts with "/nick " exactly when at least
six bytes were read and the first six are the literal. -/
theorem nick_prefix_takeWhile_iff (data : List Nat) :
    NICK_CMD <+: data.takeWhile (fun b => b != 0)
      ↔ 6 ≤ data.length ∧ data.take 6 = NICK_CMD := by
  rw [← nick_prefix_iff]
  constructor
  · intro h
    exact h.trans (List.takeWhile_prefix _)
  · rintro ⟨t, rfl⟩
    rw [takeWhile_prefix_noNul NICK_CMD t (by decide)]
    exact List.prefix_append _ _

end SmallChat

namespace SmallChat

theorem zero_buffer_length (v : Nat) : (List.replicate 1024 v).length = MAX_BUFFER :=
  List.length_replicate 1024 v

theorem full_queue_length (v : Nat) : MAX_BUFFER ≤ (List.replicate 1024 v).length :=
  Nat.le_of_eq (List.length_replicate 1024 v).symm

end SmallChat

namespace SmallChat

/-! ## The bounds check fails in a pass exactly when a read fills the buffer -/

theorem first_full_read (ready : Int → Bool) (pending : Int → Pending) (clients : List Client)
    (h : ¬ ShortReads ready pending clients) :
    ∃ good c rest, clients = good ++ c :: rest ∧ ShortReads ready pending good
      ∧ FullRead ready pending c := by
  induction clients with
  | nil => exact absurd (fun c hc => by simp at hc) h
  | cons a t ih =>
    by_cases ha : ShortReads ready pending [a]
    · have ht : ¬ ShortReads ready pending t := by
        intro ht
        apply h
        intro c hc
        rcases List.mem_cons.1 hc with hc | hc
        · subst hc; exact ha c (List.mem_singleton.2 rfl)
        · exact ht c hc
      obtain ⟨good, c, rest, heq, hgood, hfull⟩ := ih ht
      refine ⟨a :: good, c, rest, by rw [heq]; rfl, ?_, hfull⟩
      intro x hx
      rcases List.mem_cons.1 hx with hx | hx
      · subst hx; exact ha x (List.mem_singleton.2 rfl)
      · exact hgood x hx
    · refine ⟨[], a, t, rfl, fun c hc => by simp at hc, ?_⟩
      unfold ShortReads at ha
      push_neg at ha
      obtain ⟨c, hc, hr, data, hp, hlen⟩ := ha
      rw [List.mem_singleton] at hc
      subst hc
      exact ⟨hr, data, hp, hlen⟩

/-- Under the bounds check the traversal reaches the first client whose read
fills the buffer and stops at the failed check. -/
theorem traverse_full_fault (ready : Int → Bool) (pending : Int → Pending) (c : Client)
    (rest : List Client) (hfull : FullRead ready pending c) :
    ∀ (good pre : List Client) (fuel : Nat) (buffer : List Nat),
      good.length + 1 + rest.length ≤ fuel → buffer.length = MAX_BUFFER →
      ShortReads ready pending good →
      traverse ready pending fuel (pre ++ (good ++ c :: rest)) pre.length buffer
        = .error .outOfBounds := by
  obtain ⟨hr, data, hp, hlen⟩ := hfull
  intro good
  induction good with
  | nil =>
    intro pre fuel buffer hfuel hbuf _
    cases fuel with
    | zero => omega
    | succ fuel =>
      exact traverse_fault _ _ _ _ _ _ _ (by simp)
        (visit_full ready pending _ _ c buffer data
          (getElem?_append_cons_length pre c rest) hr hp hlen hbuf)
  | cons g good ih =>
    intro pre fuel buffer hfuel hbuf hshort
    cases fuel with
    | zero => simp at hfuel
    | succ fuel =>
      have hshortg : ShortReads ready pending [g] := by
        intro x hx
        rw [List.mem_singleton] at hx
        subst hx
        exact hshort x (List.mem_cons_self _ _)
      have hshortr : ShortReads ready pending good :=
        fun x hx => hshort x (List.mem_cons_of_mem _ hx)
      obtain ⟨buf1, ev1, hv, hbuf1, _⟩ :=
        visit_head ready pending pre g (good ++ c :: rest) buffer hbuf hshortg
      have hlen' : pre.length + (survivor ready pending g).toList.length
          = (pre ++ (survivor ready pending g).toList).length := by simp
      have hih := ih (pre ++ (survivor ready pending g).toList) fuel buf1
        (by simp at hfuel; omega) hbuf1 hshortr
      rw [show pre ++ (g :: good ++ c :: rest) = pre ++ g :: (good ++ c :: rest) from rfl,
        traverse_step ready pending fuel _ _ _ _ _ _ _ (by simp) hv, hlen', hih]
      rfl

/-- Under the bounds check, a pass over a registry in which some readable
client has MAX_BUFFER bytes or more queued stops at the terminator store. -/
theorem pass_full_fault (ready : Int → Bool) (pending : Int → Pending) (clients : List Client)
    (buffer : List Nat) (hbuf : buffer.length = MAX_BUFFER)
    (h : ¬ ShortReads ready pending clients) :
    pass ready pending clients buffer = .error .outOfBounds := by
  obtain ⟨good, c, rest, heq, hgood, hfull⟩ := first_full_read ready pending clients h
  subst heq
  unfold pass
  have := traverse_full_fault ready pending c rest hfull good [] (good ++ c :: rest).length
    buffer (by simp; omega) hbuf hgood
  simpa using this

/-- The fuel of a pass is never used up: under the bounds check a pass either
ends with a registry or stops at a terminator store outside the array. -/
theorem pass_ok_or_out_of_bounds (ready : Int → Bool) (pending : Int → Pending)
    (clients : List Client) (buffer : List Nat) (hbuf : buffer.length = MAX_BUFFER) :
    (∃ buffer' events, pass ready pending clients buffer
        = .ok (clients.filterMap (survivor ready pending), buffer', events))
      ∨ pass ready pending clients buffer = .error .outOfBounds := by
  by_cases h : ShortReads ready pending clients
  · obtain ⟨buffer', events, hpass, _⟩ := pass_spec ready pending clients buffer hbuf h
    exact Or.inl ⟨buffer', events, hpass⟩
  · exact Or.inr (pass_full_fault ready pending clients buffer hbuf h)

end SmallChat

namespace SmallChat

/-! ## The traversal with the store as written: every read is handled -/

/-- After a read of got, which fits the array, the terminator is stored right
behind the bytes read, inside the array or in the first byte behind it, and
the message is got up to its first zero byte. -/
theorem terminateUnchecked_eq (mem got : List Nat) (h : got.length < mem.length) :
    terminateUnchecked (got ++ mem.drop got.length) (got.length : Int)
      = .ok (got.takeWhile (fun b => b != 0), got ++ 0 :: mem.drop (got.length + 1)) := by
  have hdrop : mem.drop got.length = mem[got.length] :: mem.drop (got.length + 1) :=
    List.drop_eq_getElem_cons h
  unfold terminateUnchecked storeUnchecked
  show (do let msg ← stringOfBuffer ((got ++ mem.drop got.length).set
      (got.length : Int).toNat 0); pure (msg, (got ++ mem.drop got.length).set
      (got.length : Int).toNat 0)) = _
  rw [Int.toNat_ofNat, hdrop, set_append_length]
  unfold stringOfBuffer
  have hmem : 0 ∈ got ++ 0 :: mem.drop (got.length + 1) := by simp
  simp only [hmem, if_true]
  rw [takeWhile_append_zero]
  rfl

theorem visitUnchecked_not_ready (ready : Int → Bool) (pending : Int → Pending)
    (clients : List Client) (it : Nat) (c : Client) (mem : List Nat)
    (hc : clients[it]? = some c) (hr : ready c.clientSocket = false) :
    visitUnchecked ready pending clients it mem = .ok (clients, it + 1, mem, []) := by
  unfold visitUnchecked
  rw [hc]
  simp only [Client.getSocket, hr]
  rfl

theorem visitUnchecked_closed (ready : Int → Bool) (pending : Int → Pending)
    (clients : List Client) (it : Nat) (c : Client) (mem : List Nat)
    (hc : clients[it]? = some c) (hr : ready c.clientSocket = true)
    (h0 : readCount pending c.clientSocket ≤ 0) :
    visitUnchecked ready pending clients it mem
      = .ok (clients.eraseIdx it, it, mem,
          [Event.read c.clientSocket, Event.close c.clientSocket]) := by
  unfold visitUnchecked
  rw [hc]
  simp only [Client.getSocket, hr, if_true]
  unfold readCount at h0
  unfold Client.readFrom
  cases hp : pending c.clientSocket with
  | error => simp; rfl
  | bytes data =>
    rw [hp] at h0
    simp only at h0
    have hlen : (data.take MAX_BUFFER).length = 0 := by omega
    have hnil : data.take MAX_BUFFER = [] := List.length_eq_zero.1 hlen
    simp only [hnil]
    simp
    rfl

/-- A readable client whose read returns a positive count, up to the whole
size of the array, has the bytes read, up to the first zero byte, handled as
its message. -/
theorem visitUnchecked_message (ready : Int → Bool) (pending : Int → Pending)
    (clients : List Client) (it : Nat) (c : Client) (mem data : List Nat)
    (hc : clients[it]? = some c) (hr : ready c.clientSocket = true)
    (hp : pending c.clientSocket = .bytes data) (hpos : data ≠ [])
    (hmem : MAX_BUFFER < mem.length) :
    visitUnchecked ready pending clients it mem
      = (processMessage clients it ((data.take MAX_BUFFER).takeWhile (fun b => b != 0))).map
          (fun r => (r.1, it + 1,
            data.take MAX_BUFFER ++ 0 :: mem.drop ((data.take MAX_BUFFER).length + 1),
            Event.read c.clientSocket :: r.2)) := by
  unfold visitUnchecked
  rw [hc]
  simp only [Client.getSocket, hr, if_true]
  unfold Client.readFrom
  rw [hp]
  have hlen : 0 < data.length := List.length_pos.2 hpos
  have hle : (data.take MAX_BUFFER).length ≤ MAX_BUFFER := by
    rw [List.length_take]; omega
  have hgot : 0 < (data.take MAX_BUFFER).length := by
    rw [List.length_take]; unfold MAX_BUFFER; omega
  have hnot : ¬ (((data.take MAX_BUFFER).length : Int) ≤ 0) := by omega
  simp only [hnot, if_false]
  rw [terminateUnchecked_eq mem (data.take MAX_BUFFER) (by omega)]
  cases hpm : processMessage clients it ((data.take MAX_BUFFER).takeWhile (fun b => b != 0)) <;>
    simp [bind, Except.bind, Except.map, hpm, pure, Except.pure]

/-- The turn for the client c that stands behind the already visited clients
pre, with the store as written: whatever the read returns, the registry keeps
pre and the clients behind c, and c is replaced by what survives of it. -/
theorem visitUnchecked_head (ready : Int → Bool) (pending : Int → Pending) (pre : List Client)
    (c : Client) (rest : List Client) (mem : List Nat) (hmem : MAX_BUFFER < mem.length) :
    ∃ mem' events,
      visitUnchecked ready pending (pre ++ c :: rest) pre.length mem
        = .ok (pre ++ (survivor ready pending c).toList ++ rest,
            pre.length + (survivor ready pending c).toList.length, mem', events)
      ∧ MAX_BUFFER < mem'.length
      ∧ events.filterMap readFd = (if ready c.clientSocket then [c.clientSocket] else [])
      ∧ events.filterMap closeFd
          = (if survivor ready pending c = none then [c.clientSocket] else [])
      ∧ (∀ fd data, Event.write fd data ∈ events →
          fd ∈ (pre ++ c :: rest).map Client.clientSocket ∧ fd ≠ c.clientSocket)
      ∧ (∀ fd, Event.close fd ∉ events ∨ ∀ data, Event.write fd data ∉ events) := by
  have hc := getElem?_append_cons_length pre c rest
  by_cases hr : ready c.clientSocket = true
  · by_cases h0 : readCount pending c.clientSocket ≤ 0
    · have hs : survivor ready pending c = none := by simp [survivor, hr, h0]
      refine ⟨mem, [Event.read c.clientSocket, Event.close c.clientSocket],
        ?_, hmem, ?_, ?_, ?_, ?_⟩
      · rw [visitUnchecked_closed ready pending _ _ c mem hc hr h0, hs,
          eraseIdx_append_cons_length]
        simp
      · simp [readFd, hr]
      · simp [closeFd, hs]
      · intro fd data h; simp at h
      · intro fd; right; intro data h; simp at h
    · have hex : ∃ data, pending c.clientSocket = .bytes data := by
        cases hp : pending c.clientSocket with
        | error => simp [readCount, hp] at h0
        | bytes data => exact ⟨data, rfl⟩
      obtain ⟨data, hp⟩ := hex
      have hpos : data ≠ [] := by
        intro hnil
        apply h0
        simp [readCount, hp, hnil]
      have hbytes : readBytes pending c.clientSocket = data.take MAX_BUFFER := by
        simp [readBytes, hp]
      have hv := visitUnchecked_message ready pending _ _ c mem data hc hr hp hpos hmem
      have hle : (data.take MAX_BUFFER).length ≤ MAX_BUFFER := by
        rw [List.length_take]; omega
      have hlen' : MAX_BUFFER <
          (data.take MAX_BUFFER ++ 0 :: mem.drop ((data.take MAX_BUFFER).length + 1)).length := by
        simp only [List.length_append, List.length_cons, List.length_drop]
        omega
      by_cases hren : NICK_CMD <+: (data.take MAX_BUFFER).takeWhile (fun b => b != 0)
      · have hs : survivor ready pending c
            = some (c.setNick
                (strip (((data.take MAX_BUFFER).takeWhile (fun b => b != 0)).drop 6))) := by
          simp [survivor, hr, h0, hbytes, hren]
        refine ⟨data.take MAX_BUFFER ++ 0 :: mem.drop ((data.take MAX_BUFFER).length + 1),
          [Event.read c.clientSocket], ?_, hlen', ?_, ?_, ?_, ?_⟩
        · rw [hv, processMessage_rename _ _ c _ hc hren, hs, set_append_cons_length]
          simp [Except.map, strip]
        · simp [readFd, hr]
        · simp [closeFd, hs]
        · intro fd d h; simp at h
        · intro fd; left; simp
      · have hs : survivor ready pending c = some c := by
          simp [survivor, hr, h0, hbytes, hren]
        refine ⟨data.take MAX_BUFFER ++ 0 :: mem.drop ((data.take MAX_BUFFER).length + 1),
          Event.read c.clientSocket :: sendMsgToClients (pre ++ c :: rest) c.clientSocket
            (c.nick ++ SEP ++ (data.take MAX_BUFFER).takeWhile (fun b => b != 0)),
          ?_, hlen', ?_, ?_, ?_, ?_⟩
        · rw [hv, processMessage_chat _ _ c _ hc hren, hs]
          simp [Except.map]
        · have hnone : ∀ l : List Event, (∀ e ∈ l, ∃ fd d, e = Event.write fd d) →
              l.filterMap readFd = [] := by
            intro l hl
            rw [List.filterMap_eq_nil_iff]
            intro e he
            rcases hl e he with ⟨fd, d, rfl⟩
            rfl
          rw [List.filterMap_cons]
          simp only [readFd, hr, if_true]
          rw [hnone]
          intro e he
          rcases mem_sendMsgToClients _ _ _ e he with ⟨o, _, _, rfl⟩
          exact ⟨_, _, rfl⟩
        · rw [hs]
          simp only [List.filterMap_cons, closeFd]
          rw [if_neg (by simp), List.filterMap_eq_nil_iff]
          intro e he
          rcases mem_sendMsgToClients _ _ _ e he with ⟨o, _, _, rfl⟩
          rfl
        · intro fd d h
          rcases List.mem_cons.1 h with h | h
          · cases h
          · rcases mem_sendMsgToClients _ _ _ _ h with ⟨o, ho, hne, heq⟩
            injection heq with h1 h2
            subst h1
            exact ⟨List.mem_map_of_mem _ ho, hne⟩
        · intro fd; left
          intro h
          rcases List.mem_cons.1 h with h | h
          · cases h
          · rcases mem_sendMsgToClients _ _ _ _ h with ⟨o, _, _, heq⟩
            cases heq
  · have hr' : ready c.clientSocket = false := by simpa using hr
    have hs : survivor ready pending c = some c := by simp [survivor, hr']
    refine ⟨mem, [], ?_, hmem, ?_, ?_, ?_, ?_⟩
    · rw [visitUnchecked_not_ready ready pending _ _ c mem hc hr', hs]
      simp
    · simp [hr']
    · simp [hs]
    · intro fd d h; simp at h
    · intro fd; left; simp

theorem traverseUnchecked_done (ready : Int → Bool) (pending : Int → Pending) (fuel : Nat)
    (clients : List Client) (it : Nat) (mem : List Nat) (h : ¬ it < clients.length) :
    traverseUnchecked ready pending fuel clients it mem = .ok (clients, mem, []) := by
  cases fuel <;> simp [traverseUnchecked, h] <;> rfl

theorem traverseUnchecked_step (ready : Int → Bool) (pending : Int → Pending) (fuel : Nat)
    (clients : List Client) (it : Nat) (mem : List Nat) (clients' : List Client) (it' : Nat)
    (mem' : List Nat) (events : List Event) (hit : it < clients.length)
    (hv : visitUnchecked ready pending clients it mem = .ok (clients', it', mem', events)) :
    traverseUnchecked ready pending (fuel + 1) clients it mem
      = (traverseUnchecked ready pending fuel clients' it' mem').map
          (fun r => (r.1, r.2.1, events ++ r.2.2)) := by
  rw [traverseUnchecked]
  simp only [hit, if_true, hv]
  cases htr : traverseUnchecked ready pending fuel clients' it' mem' <;>
    simp [bind, Except.bind, Except.map, htr, pure, Except.pure]

/-- The traversal with the store as written, from the client behind pre on:
with one turn of fuel per client left it ends without fault, whatever the
reads return, and these are its registry, reads, closes and writes. -/
theorem traverseUnchecked_spec (ready : Int → Bool) (pending : Int → Pending) :
    ∀ (suf pre : List Client) (fuel : Nat) (mem : List Nat),
      suf.length ≤ fuel → MAX_BUFFER < mem.length →
      ∃ mem' events,
        traverseUnchecked ready pending fuel (pre ++ suf) pre.length mem
          = .ok (pre ++ suf.filterMap (survivor ready pending), mem', events)
        ∧ MAX_BUFFER < mem'.length
        ∧ events.filterMap readFd
            = (suf.filter (fun c => ready c.clientSocket)).map Client.clientSocket
        ∧ events.filterMap closeFd
            = (suf.filter (fun c => (survivor ready pending c).isNone)).map Client.clientSocket
        ∧ (∀ fd data, Event.write fd data ∈ events →
            fd ∈ (pre ++ suf).map Client.clientSocket)
        ∧ (((pre ++ suf).map Client.clientSocket).Nodup →
            events.Pairwise NoWriteAfterClose) := by
  intro suf
  induction suf with
  | nil =>
    intro pre fuel mem _ hmem
    refine ⟨mem, [], ?_, hmem, rfl, rfl, ?_, ?_⟩
    · rw [traverseUnchecked_done _ _ _ _ _ _ (by simp)]
      simp
    · intro fd d h; simp at h
    · intro _; exact List.Pairwise.nil
  | cons c rest ih =>
    intro pre fuel mem hfuel hmem
    cases fuel with
    | zero => simp at hfuel
    | succ fuel =>
      obtain ⟨mem1, ev1, hv, hmem1, hread1, hclose1, hwrite1, hexcl1⟩ :=
        visitUnchecked_head ready pending pre c rest mem hmem
      have hlen : pre.length + (survivor ready pending c).toList.length
          = (pre ++ (survivor ready pending c).toList).length := by simp
      obtain ⟨mem2, ev2, htr, hmem2, hread2, hclose2, hwrite2, hpair2⟩ :=
        ih (pre ++ (survivor ready pending c).toList) fuel mem1
          (by simp at hfuel; omega) hmem1
      have hsub : ((pre ++ (survivor ready pending c).toList ++ rest).map
          Client.clientSocket).Sublist ((pre ++ c :: rest).map Client.clientSocket) := by
        cases hs : survivor ready pending c with
        | none =>
          simp only [Option.toList, List.append_nil]
          exact ((List.sublist_cons_self c rest).append_left pre).map _
        | some c' =>
          have hsock := survivor_socket ready pending c c' hs
          simp [Option.toList, hsock]
      refine ⟨mem2, ev1 ++ ev2, ?_, hmem2, ?_, ?_, ?_, ?_⟩
      · rw [traverseUnchecked_step ready pending fuel _ _ _ _ _ _ _ (by simp) hv, hlen, htr]
        cases hs : survivor ready pending c <;> simp [Except.map, hs]
      · rw [List.filterMap_append, hread1, hread2, List.filter_cons]
        by_cases hr : ready c.clientSocket = true <;> simp [hr]
      · rw [List.filterMap_append, hclose1, hclose2, List.filter_cons]
        cases hs : survivor ready pending c <;> simp [hs]
      · intro fd d h
        rcases List.mem_append.1 h with h | h
        · exact (hwrite1 fd d h).1
        · exact hsub.subset (hwrite2 fd d h)
      · intro hnd
        rw [List.pairwise_append]
        refine ⟨?_, hpair2 (hnd.sublist hsub), ?_⟩
        · apply List.pairwise_of_forall_mem_list
          intro a ha b hb fd hfd d hbd
          subst hfd; subst hbd
          rcases hexcl1 fd with h | h
          · exact h ha
          · exact h d hb
        · intro a ha b hb fd hfd d hbd
          subst hfd; subst hbd
          have hmemc : fd ∈ ev1.filterMap closeFd :=
            List.mem_filterMap.2 ⟨_, ha, rfl⟩
          rw [hclose1] at hmemc
          by_cases hs : survivor ready pending c = none
          · simp only [hs, if_true, List.mem_singleton] at hmemc
            subst hmemc
            have hin := hwrite2 c.clientSocket d hb
            rw [hs] at hin
            simp only [Option.toList, List.append_nil] at hin
            have hnd' := hnd
            rw [List.map_append, List.map_cons, List.nodup_middle, List.nodup_cons] at hnd'
            apply hnd'.1
            rw [← List.map_append]
            exact hin
          · simp [hs] at hmemc

/-- A pass with the store as written ends without fault for every ready set
and every result of the reads, and these are its registry and events. -/
theorem passUnchecked_spec (ready : Int → Bool) (pending : Int → Pending)
    (clients : List Client) (mem : List Nat) (hmem : MAX_BUFFER < mem.length) :
    ∃ mem' events,
      passUnchecked ready pending clients mem
        = .ok (clients.filterMap (survivor ready pending), mem', events)
      ∧ MAX_BUFFER < mem'.length
      ∧ events.filterMap readFd
          = (clients.filter (fun c => ready c.clientSocket)).map Client.clientSocket
      ∧ events.filterMap closeFd
          = (clients.filter (fun c => (survivor ready pending c).isNone)).map
              Client.clientSocket
      ∧ (∀ fd data, Event.write fd data ∈ events → fd ∈ clients.map Client.clientSocket)
      ∧ ((clients.map Client.clientSocket).Nodup → events.Pairwise NoWriteAfterClose) := by
  simpa [passUnchecked] using traverseUnchecked_spec ready pending clients [] clients.length mem
    (Nat.le_refl _) hmem

end SmallChat

namespace SmallChat

/-- A short read over leftover bytes: the client on socket 5 sends the five
bytes "/nick" while the buffer still holds "/nick Bob" from an earlier read.
The message is "/nick", a chat line, and not the "/nick Bob" that the buffer
would spell without the terminator. -/
theorem short_read_over_leftover_bytes :
    visitUnchecked (fun _ => true) (fun _ => .bytes (text "/nick"))
        [Client.new 4, Client.new 5] 1 (text "/nick Bob" ++ List.replicate 1016 0)
      = .ok ([Client.new 4, Client.new 5], 2,
          text "/nick" ++ 0 :: (text "/nick Bob" ++ List.replicate 1016 0).drop 6,
          [Event.read 5, Event.write 4 (text "User:5 > /nick")]) := by
  have h := visitUnchecked_message (fun _ => true) (fun _ => .bytes (text "/nick"))
    [Client.new 4, Client.new 5] 1 (Client.new 5) (text "/nick Bob" ++ List.replicate 1016 0)
    (text "/nick") rfl rfl rfl (by decide)
    (by rw [List.length_append, List.length_replicate]; decide)
  have htake : (text "/nick").take MAX_BUFFER = text "/nick" := by decide
  have hm : processMessage [Client.new 4, Client.new 5] 1
      ((text "/nick").takeWhile (fun b => b != 0))
      = .ok ([Client.new 4, Client.new 5], [Event.write 4 (text "User:5 > /nick")]) := by
    decide
  rw [h, htake, hm]
  rfl

end SmallChat

namespace SmallChat

/-! ## The two traversals agree wherever the checked store succeeds -/

/-- A turn that ends without fault under the checked store is the same turn
with the store as written: same registry, same events, and the memory behind
the array untouched. -/
theorem visit_agrees (ready : Int → Bool) (pending : Int → Pending) (clients : List Client)
    (it : Nat) (buffer behind : List Nat) (clients' : List Client) (it' : Nat)
    (buffer' : List Nat) (events : List Event)
    (hbuf : buffer.length = MAX_BUFFER) (hbehind : behind ≠ [])
    (h : visit ready pending clients it buffer = .ok (clients', it', buffer', events)) :
    buffer'.length = MAX_BUFFER
      ∧ visitUnchecked ready pending clients it (buffer ++ behind)
          = .ok (clients', it', buffer' ++ behind, events) := by
  have hmem : MAX_BUFFER < (buffer ++ behind).length := by
    have := List.length_pos.2 hbehind
    rw [List.length_append]; omega
  cases hc : clients[it]? with
  | none =>
    unfold visit at h
    rw [hc] at h
    cases h
  | some c =>
    by_cases hr : ready c.clientSocket = true
    · by_cases h0 : readCount pending c.clientSocket ≤ 0
      · rw [visit_closed ready pending clients it c buffer hc hr h0] at h
        injection h with h
        simp only [Prod.mk.injEq] at h
        obtain ⟨rfl, rfl, rfl, rfl⟩ := h
        exact ⟨hbuf, visitUnchecked_closed ready pending clients it c _ hc hr h0⟩
      · have hex : ∃ data, pending c.clientSocket = .bytes data := by
          cases hp : pending c.clientSocket with
          | error => simp [readCount, hp] at h0
          | bytes data => exact ⟨data, rfl⟩
        obtain ⟨data, hp⟩ := hex
        have hpos : data ≠ [] := by
          intro hnil
          apply h0
          simp [readCount, hp, hnil]
        by_cases hlt : data.length < MAX_BUFFER
        · have htake : data.take MAX_BUFFER = data := List.take_of_length_le (by omega)
          rw [visit_message ready pending clients it c buffer data hc hr hp hpos hlt hbuf] at h
          rw [visitUnchecked_message ready pending clients it c _ data hc hr hp hpos hmem, htake]
          have hdrop : (buffer ++ behind).drop (data.length + 1)
              = buffer.drop (data.length + 1) ++ behind :=
            List.drop_append_of_le_length (by omega)
          rw [hdrop]
          cases hpm : processMessage clients it (data.takeWhile (fun b => b != 0)) with
          | error e => rw [hpm] at h; cases h
          | ok r =>
            rw [hpm] at h
            injection h with h
            simp only [Prod.mk.injEq] at h
            obtain ⟨rfl, rfl, rfl, rfl⟩ := h
            refine ⟨?_, ?_⟩
            · simp only [List.length_append, List.length_cons, List.length_drop]
              omega
            · simp [Except.map]
        · rw [visit_full ready pending clients it c buffer data hc hr hp (by omega) hbuf] at h
          cases h
    · have hr' : ready c.clientSocket = false := by simpa using hr
      rw [visit_not_ready ready pending clients it c buffer hc hr'] at h
      injection h with h
      simp only [Prod.mk.injEq] at h
      obtain ⟨rfl, rfl, rfl, rfl⟩ := h
      exact ⟨hbuf, visitUnchecked_not_ready ready pending clients it c _ hc hr'⟩

/-- A pass that ends without fault under the checked store is the same pass
with the store as written: same registry and same events. -/
theorem traverse_agrees (ready : Int → Bool) (pending : Int → Pending) (behind : List Nat)
    (hbehind : behind ≠ []) :
    ∀ (fuel : Nat) (clients : List Client) (it : Nat) (buffer : List Nat)
      (clients' : List Client) (buffer' : List Nat) (events : List Event),
      buffer.length = MAX_BUFFER →
      traverse ready pending fuel clients it buffer = .ok (clients', buffer', events) →
      traverseUnchecked ready pending fuel clients it (buffer ++ behind)
        = .ok (clients', buffer' ++ behind, events) := by
  intro fuel
  induction fuel with
  | zero =>
    intro clients it buffer clients' buffer' events _ h
    by_cases hit : it < clients.length
    · simp [traverse, hit] at h
    · rw [traverse_done _ _ _ _ _ _ hit] at h
      injection h with h
      simp only [Prod.mk.injEq] at h
      obtain ⟨rfl, rfl, rfl⟩ := h
      exact traverseUnchecked_done _ _ _ _ _ _ hit
  | succ fuel ih =>
    intro clients it buffer clients' buffer' events hbuf h
    by_cases hit : it < clients.length
    · cases hv : visit ready pending clients it buffer with
      | error e =>
        rw [traverse_fault ready pending fuel clients it buffer e hit hv] at h
        cases h
      | ok r =>
        obtain ⟨c1, it1, b1, e1⟩ := r
        rw [traverse_step ready pending fuel clients it buffer c1 it1 b1 e1 hit hv] at h
        obtain ⟨hb1, hvu⟩ := visit_agrees ready pending clients it buffer behind c1 it1 b1 e1
          hbuf hbehind hv
        cases htr : traverse ready pending fuel c1 it1 b1 with
        | error e => rw [htr] at h; cases h
        | ok r2 =>
          obtain ⟨c2, b2, e2⟩ := r2
          rw [htr] at h
          injection h with h
          simp only [Prod.mk.injEq] at h
          obtain ⟨rfl, rfl, rfl⟩ := h
          rw [traverseUnchecked_step ready pending fuel clients it _ c1 it1 _ e1 hit hvu,
            ih c1 it1 b1 c2 b2 e2 hb1 htr]
          rfl
    · rw [traverse_done _ _ _ _ _ _ hit] at h
      injection h with h
      simp only [Prod.mk.injEq] at h
      obtain ⟨rfl, rfl, rfl⟩ := h
      exact traverseUnchecked_done _ _ _ _ _ _ hit

end SmallChat

namespace SmallChat

/-! ## The literals, and the invariant behind the no-zero-byte hypotheses -/

/-- The byte lists of the model are the literals of the source. -/
theorem literals_spelled :
    NICK_CMD = text "/nick " ∧ SEP = text " > " ∧ USER = text "User:"
    ∧ ChatManagement.welcome_msg
        = text "Welcome to Simple Chat! Use /nick <nick> to set your nick.\n"
    ∧ ChatManager.welcome_msg
        = text "Welcome to Simple Chat! Use /nick <nick> to set your nick_.\n" := by
  decide

/-- A message built by std::string msg{buffer} holds no zero byte. -/
theorem noNul_stringOfBuffer (buffer msg : List Nat) (h : stringOfBuffer buffer = .ok msg) :
    NoNul msg := by
  unfold stringOfBuffer at h
  split at h
  · injection h with h
    subst h
    exact noNul_takeWhile buffer
  · cases h

/-- Whatever a pass leaves of a client with a nick without zero byte has a
nick without zero byte. -/
theorem noNul_survivor (ready : Int → Bool) (pending : Int → Pending) (c c' : Client)
    (hc : NoNul c.nick) (h : survivor ready pending c = some c') : NoNul c'.nick := by
  unfold survivor at h
  split at h
  · split at h
    · cases h
    · simp only at h
      split at h
      · cases h
        exact noNul_filter _ (noNul_drop 6 (noNul_takeWhile _))
      · cases h; exact hc
  · cases h; exact hc

/-- The nicks of the registry hold no zero byte: this is so for every client
that acceptClient adds and is kept by every pass. -/
theorem noNul_invariant :
    (∀ (m : ChatManager) (accepted written : Int),
      (∀ c ∈ m.clients_, NoNul c.nick) →
      ∀ c ∈ (m.acceptClient accepted written).1.clients_, NoNul c.nick)
    ∧ (∀ (m : ChatManagement) (accepted : Int),
      (∀ c ∈ m.clients, NoNul c.nick) →
      ∀ c ∈ (m.acceptClient accepted).1.clients, NoNul c.nick)
    ∧ (∀ (ready : Int → Bool) (pending : Int → Pending) (clients : List Client)
        (buffer : List Nat),
      buffer.length = MAX_BUFFER → ShortReads ready pending clients →
      (∀ c ∈ clients, NoNul c.nick) →
      ∃ clients' buffer' events,
        pass ready pending clients buffer = .ok (clients', buffer', events)
        ∧ ∀ c ∈ clients', NoNul c.nick) := by
  refine ⟨?_, ?_, ?_⟩
  · intro m accepted written hm c hc
    unfold ChatManager.acceptClient at hc
    simp only at hc
    split at hc
    · exact hm c hc
    · split at hc
      · split at hc <;> exact hm c hc
      · have hmem : c ∈ m.clients_ ++ [Client.new accepted] := by
          split at hc <;> exact hc
        rcases List.mem_append.1 hmem with h | h
        · exact hm c h
        · rw [List.mem_singleton] at h
          subst h
          exact noNul_new accepted
  · intro m accepted hm c hc
    unfold ChatManagement.acceptClient at hc
    simp only at hc
    split at hc
    · exact hm c hc
    · have hmem : c ∈ m.clients ++ [Client.new accepted] := by
        split at hc <;> exact hc
      rcases List.mem_append.1 hmem with h | h
      · exact hm c h
      · rw [List.mem_singleton] at h
        subst h
        exact noNul_new accepted
  · intro ready pending clients buffer hbuf hshort hall
    obtain ⟨buffer', events, hpass, _⟩ := pass_spec ready pending clients buffer hbuf hshort
    refine ⟨_, buffer', events, hpass, ?_⟩
    intro c' hc'
    rcases List.mem_filterMap.1 hc' with ⟨c, hc, hs⟩
    exact noNul_survivor ready pending c c' (hall c hc) hs

end SmallChat

namespace SmallChat

/-! ## The end-to-end scenario of the specification, run on smallchat_server.cpp -/

set_option maxRecDepth 100000 in
/-- Three peers connect on sockets 4, 5, 6 and each is sent the welcome text;
the first renames itself to Alice, the second says "hi", the third leaves,
the first says "yo". -/
theorem scenario_three_peers :
    ChatManagement.acceptClient (ChatManagement.mk 3 (-1) 0 []) 4
      = (ChatManagement.mk 3 4 1 [Client.new 4],
         [Event.write 4 (text "Welcome to Simple Chat! Use /nick <nick> to set your nick.\n")])
    ∧ ChatManagement.acceptClient (ChatManagement.mk 3 4 1 [Client.new 4]) 5
      = (ChatManagement.mk 3 5 2 [Client.new 4, Client.new 5],
         [Event.write 5 (text "Welcome to Simple Chat! Use /nick <nick> to set your nick.\n")])
    ∧ ChatManagement.acceptClient (ChatManagement.mk 3 5 2 [Client.new 4, Client.new 5]) 6
      = (ChatManagement.mk 3 6 3 [Client.new 4, Client.new 5, Client.new 6],
         [Event.write 6 (text "Welcome to Simple Chat! Use /nick <nick> to set your nick.\n")])
    ∧ (ChatManagement.iteration
          (ChatManagement.mk 3 6 3 [Client.new 4, Client.new 5, Client.new 6])
          (List.replicate 1024 0) (fun fd => fd == 4) (-1)
          (fun _ => .bytes (text "/nick Alice\r\n"))).map (fun r => (r.1, r.2.2))
      = .ok (ChatManagement.mk 3 6 3 [Client.mk 4 (text "Alice"), Client.new 5, Client.new 6],
          [Event.read 4])
    ∧ (ChatManagement.iteration
          (ChatManagement.mk 3 6 3 [Client.mk 4 (text "Alice"), Client.new 5, Client.new 6])
          (List.replicate 1024 0) (fun fd => fd == 5) (-1)
          (fun _ => .bytes (text "hi\n"))).map (fun r => (r.1, r.2.2))
      = .ok (ChatManagement.mk 3 6 3 [Client.mk 4 (text "Alice"), Client.new 5, Client.new 6],
          [Event.read 5, Event.write 4 (text "User:5 > hi\n"),
           Event.write 6 (text "User:5 > hi\n")])
    ∧ (ChatManagement.iteration
          (ChatManagement.mk 3 6 3 [Client.mk 4 (text "Alice"), Client.new 5, Client.new 6])
          (List.replicate 1024 0) (fun fd => fd == 6) (-1)
          (fun _ => .bytes [])).map (fun r => (r.1, r.2.2))
      = .ok (ChatManagement.mk 3 6 2 [Client.mk 4 (text "Alice"), Client.new 5],
          [Event.read 6, Event.close 6])
    ∧ (ChatManagement.iteration
          (ChatManagement.mk 3 6 2 [Client.mk 4 (text "Alice"), Client.new 5])
          (List.replicate 1024 0) (fun fd => fd == 4) (-1)
          (fun _ => .bytes (text "yo\n"))).map (fun r => (r.1, r.2.2))
      = .ok (ChatManagement.mk 3 6 2 [Client.mk 4 (text "Alice"), Client.new 5],
          [Event.read 4, Event.write 5 (text "Alice > yo\n")]) := by
  decide

end SmallChat

/-! # The claims -/

namespace SmallChat

/-- C1 (fan-out).  In a registry with pairwise distinct sockets, a chat line
msg (a message that does not start with "/nick ") handled for the sender S at
position i leaves the registry as it is and issues, in registry order, exactly
one write of nick(S) ++ " > " ++ msg to every client other than S and no write
to S.  The strings are std::string values built from C strings, so they hold
no zero byte; nothing is assumed about the size of the registry. -/
theorem fanout_one_write_per_other (clients : List Client) (i : Nat) (S : Client)
    (msg : List Nat)
    (hnd : (clients.map Client.clientSocket).Nodup)
    (hS : clients[i]? = some S)
    (hchat : ¬ NICK_CMD <+: msg)
    (hnick : NoNul S.nick) (hmsg : NoNul msg) :
    ∃ events, processMessage clients i msg = .ok (clients, events)
      ∧ events = (clients.eraseIdx i).map
          (fun o => Event.write o.clientSocket (S.nick ++ SEP ++ msg))
      ∧ (∀ o ∈ clients, o.clientSocket ≠ S.clientSocket →
          events.count (Event.write o.clientSocket (S.nick ++ SEP ++ msg)) = 1)
      ∧ (∀ e ∈ events, ∃ o ∈ clients, o.clientSocket ≠ S.clientSocket
          ∧ e = Event.write o.clientSocket (S.nick ++ SEP ++ msg))
      ∧ (∀ data, Event.write S.clientSocket data ∉ events) := by
  have hline : NoNul (S.nick ++ SEP ++ msg) := noNul_append (noNul_append hnick noNul_SEP) hmsg
  have hfilter := filter_ne_socket_eq_eraseIdx clients i S hnd hS
  have hev : sendMsgToClients clients S.clientSocket (S.nick ++ SEP ++ msg)
      = (clients.eraseIdx i).map
          (fun o => Event.write o.clientSocket (S.nick ++ SEP ++ msg)) := by
    rw [sendMsgToClients_eq, takeWhile_noNul _ hline, hfilter]
  have hmem : ∀ o, o ∈ clients.eraseIdx i ↔ o ∈ clients ∧ o.clientSocket ≠ S.clientSocket := by
    intro o
    rw [← hfilter, List.mem_filter]
    simp
  refine ⟨_, (processMessage_chat clients i S msg hS hchat).trans (by rw [hev]), rfl, ?_, ?_, ?_⟩
  · intro o ho hne
    have hinj : Function.Injective (fun fd : Int => Event.write fd (S.nick ++ SEP ++ msg)) := by
      intro a b hab
      simpa using hab
    have hmap : (clients.eraseIdx i).map
          (fun o => Event.write o.clientSocket (S.nick ++ SEP ++ msg))
        = ((clients.eraseIdx i).map Client.clientSocket).map
          (fun fd : Int => Event.write fd (S.nick ++ SEP ++ msg)) := by
      rw [List.map_map]; rfl
    rw [hmap, List.count_map_of_injective _ _ hinj]
    have hsub : ((clients.eraseIdx i).map Client.clientSocket).Nodup :=
      hnd.sublist ((List.eraseIdx_sublist clients i).map _)
    exact List.count_eq_one_of_mem hsub
      (List.mem_map_of_mem _ ((hmem o).2 ⟨ho, hne⟩))
  · intro e he
    rcases List.mem_map.1 he with ⟨o, ho, rfl⟩
    exact ⟨o, ((hmem o).1 ho).1, ((hmem o).1 ho).2, rfl⟩
  · intro data hd
    rcases List.mem_map.1 hd with ⟨o, ho, heq⟩
    have : o.clientSocket = S.clientSocket := by
      simp only [Event.write.injEq] at heq
      exact heq.1
    exact ((hmem o).1 ho).2 this

/-- Witness of C1: three clients with sockets 4, 5, 6; the client on socket 5
sends "hi\n". -/
theorem fanout_one_write_per_other_witness :
    ∃ events, processMessage [Client.new 4, Client.new 5, Client.new 6] 1 (text "hi\n")
        = .ok ([Client.new 4, Client.new 5, Client.new 6], events)
      ∧ events = [Event.write 4 (text "User:5 > hi\n"),
                  Event.write 6 (text "User:5 > hi\n")] := by
  obtain ⟨events, h, hev, _⟩ :=
    fanout_one_write_per_other [Client.new 4, Client.new 5, Client.new 6] 1 (Client.new 5)
      (text "hi\n") (by decide) (by decide) (by decide) (by decide) (by decide)
  exact ⟨events, h, by rw [hev]; decide⟩

/-- C2 (rename result).  For every message whose first six bytes are "/nick ",
handling it for the sender at position i issues no event and leaves the sender
with the nick (msg.drop 6) filtered by "neither CR (13) nor LF (10)": the
remainder with every CR and LF removed and the other bytes in order, so the
new nick holds no CR and no LF; and "/nick Bob\r\n" yields "Bob". -/
theorem rename_strips_cr_lf :
    (∀ (clients : List Client) (i : Nat) (S : Client) (msg : List Nat),
      clients[i]? = some S → msg.take 6 = NICK_CMD →
      ∃ clients' S', processMessage clients i msg = .ok (clients', [])
        ∧ clients'[i]? = some S'
        ∧ S'.nick = (msg.drop 6).filter (fun c => decide (c ≠ 13 ∧ c ≠ 10))
        ∧ 13 ∉ S'.nick ∧ 10 ∉ S'.nick)
    ∧ processMessage [Client.new 4] 0 (text "/nick Bob\r\n")
        = .ok ([Client.mk 4 (text "Bob")], []) := by
  refine ⟨?_, by decide⟩
  intro clients i S msg hS h6
  have hlen : 6 ≤ msg.length := by
    have := congrArg List.length h6
    simp [NICK_CMD] at this
    omega
  have hren : NICK_CMD <+: msg := (nick_prefix_iff msg).2 ⟨hlen, h6⟩
  have hi : i < clients.length := (List.getElem?_eq_some.1 hS).1
  refine ⟨clients.set i (S.setNick ((msg.drop 6).filter (fun c => decide (c ≠ 13 ∧ c ≠ 10)))),
    S.setNick ((msg.drop 6).filter (fun c => decide (c ≠ 13 ∧ c ≠ 10))),
    processMessage_rename clients i S msg hS hren, ?_, rfl, ?_, ?_⟩
  · simp [hi]
  · simp [Client.setNick]
  · simp [Client.setNick]

/-- Witness of C2: the client on socket 5, second of three, sends
"/nick  A\rl\nice\n" and is called " Alice" afterwards. -/
theorem rename_strips_cr_lf_witness :
    ∃ (clients' : List Client) (S' : Client),
      processMessage [Client.new 4, Client.new 5, Client.new 6] 1
          (text "/nick  A\rl\nice\n") = .ok (clients', [])
      ∧ clients'[1]? = some S'
      ∧ S'.nick = text " Alice" := by
  obtain ⟨clients', S', h, hS', hnick, _⟩ :=
    rename_strips_cr_lf.1 [Client.new 4, Client.new 5, Client.new 6] 1 (Client.new 5)
      (text "/nick  A\rl\nice\n") (by decide) (by decide)
  exact ⟨clients', S', h, hS', by rw [hnick]; decide⟩

/-- C3 (rename scope).  A rename command msg handled for the sender S at
position i issues no event at all, keeps the length of the registry and the
socket at every position, leaves every client at another position as it was,
and a chat line handled next for the same position is written to the others
as newNick ++ " > " ++ (the line up to its first zero byte), where newNick is
the nick S now has.  The command is a std::string built from a C string, so
it holds no zero byte. -/
theorem rename_scope (clients : List Client) (i : Nat) (S : Client) (msg : List Nat)
    (hS : clients[i]? = some S) (hren : NICK_CMD <+: msg) (hmsg : NoNul msg) :
    ∃ clients' S', processMessage clients i msg = .ok (clients', [])
      ∧ clients'.length = clients.length
      ∧ clients'.map Client.clientSocket = clients.map Client.clientSocket
      ∧ (∀ j, j ≠ i → clients'[j]? = clients[j]?)
      ∧ clients'[i]? = some S' ∧ S'.clientSocket = S.clientSocket
      ∧ S'.nick = (msg.drop 6).filter (fun c => decide (c ≠ 13 ∧ c ≠ 10))
      ∧ (∀ line, ¬ NICK_CMD <+: line →
          processMessage clients' i line
            = .ok (clients', (clients'.filter
                (fun o => decide (o.clientSocket ≠ S.clientSocket))).map
                (fun o => Event.write o.clientSocket
                  (S'.nick ++ SEP ++ line.takeWhile (fun b => b != 0))))) := by
  have hi : i < clients.length := (List.getElem?_eq_some.1 hS).1
  have hSi : clients[i] = S := by
    rcases List.getElem?_eq_some.1 hS with ⟨_, h⟩
    exact h
  refine ⟨clients.set i (S.setNick ((msg.drop 6).filter (fun c => decide (c ≠ 13 ∧ c ≠ 10)))),
    S.setNick ((msg.drop 6).filter (fun c => decide (c ≠ 13 ∧ c ≠ 10))),
    processMessage_rename clients i S msg hS hren, ?_, ?_, ?_, ?_, rfl, rfl, ?_⟩
  · simp
  · apply List.ext_getElem?
    intro j
    by_cases hj : i = j
    · subst hj
      simp [List.getElem?_map, hi, Client.setNick, hSi]
    · simp [List.getElem?_map, List.getElem?_set_ne hj]
  · intro j hj
    exact List.getElem?_set_ne (Ne.symm hj)
  · simp [hi]
  · intro line hline
    have hget : (clients.set i
        (S.setNick ((msg.drop 6).filter (fun c => decide (c ≠ 13 ∧ c ≠ 10)))))[i]?
        = some (S.setNick ((msg.drop 6).filter (fun c => decide (c ≠ 13 ∧ c ≠ 10)))) := by
      simp [hi]
    rw [processMessage_chat _ i _ line hget hline, sendMsgToClients_eq]
    have hn : NoNul ((S.setNick ((msg.drop 6).filter
        (fun c => decide (c ≠ 13 ∧ c ≠ 10)))).nick ++ SEP) :=
      noNul_append (noNul_filter _ (noNul_drop 6 hmsg)) noNul_SEP
    rw [takeWhile_prefix_noNul _ line hn]
    rfl

/-- Witness of C3: clients on sockets 4, 5, 6; the client on socket 4 sends
"/nick Bob\r\n" and then "yo\n". -/
theorem rename_scope_witness :
    ∃ (clients' : List Client) (S' : Client),
      processMessage [Client.new 4, Client.new 5, Client.new 6] 0
          (text "/nick Bob\r\n") = .ok (clients', [])
      ∧ clients' = [Client.mk 4 (text "Bob"), Client.new 5, Client.new 6]
      ∧ S'.nick = text "Bob"
      ∧ processMessage clients' 0 (text "yo\n")
          = .ok (clients', [Event.write 5 (text "Bob > yo\n"),
                            Event.write 6 (text "Bob > yo\n")]) := by
  obtain ⟨clients', S', h, _, _, _, hS', _, _, _⟩ :=
    rename_scope [Client.new 4, Client.new 5, Client.new 6] 0 (Client.new 4)
      (text "/nick Bob\r\n") (by decide) (by decide) (by decide)
  have hc : clients'
      = [Client.mk 4 (text "Bob"), Client.new 5, Client.new 6] := by
    have h2 : processMessage [Client.new 4, Client.new 5, Client.new 6] 0
        (text "/nick Bob\r\n")
        = .ok ([Client.mk 4 (text "Bob"), Client.new 5, Client.new 6], [])
        := by decide
    rw [h2] at h
    injection h with h
    injection h with h _
    exact h.symm
  subst hc
  refine ⟨_, S', h, rfl, ?_, by decide⟩
  simp only [List.getElem?_cons_zero, Option.some.injEq] at hS'
  rw [← hS']

/-- C9 (default identity).  A client created for socket n has the nick "User:"
followed by the decimal text of n (std::to_string), a function of n alone; the
nick is never empty, and two different sockets give two different nicks. -/
theorem default_nick_injective :
    (∀ n : Int, (Client.new n).nick = USER ++ to_string n)
    ∧ (∀ n : Int, (Client.new n).clientSocket = n ∧ (Client.new n).nick ≠ [])
    ∧ (∀ a b : Int, a ≠ b → (Client.new a).nick ≠ (Client.new b).nick)
    ∧ Function.Injective (fun n : Int => (Client.new n).nick)
    ∧ (Client.new 4).nick = text "User:4"
    ∧ (Client.new 1023).nick = text "User:1023"
    ∧ (Client.new (-1)).nick = text "User:-1" := by
  have hinj : Function.Injective (fun n : Int => (Client.new n).nick) := by
    intro a b h
    exact to_string_injective (List.append_cancel_left h)
  refine ⟨fun _ => rfl, ?_, ?_, hinj, by decide, by decide, by decide⟩
  · intro n
    refine ⟨rfl, ?_⟩
    simp [Client.new, USER]
  · intro a b hab h
    exact hab (hinj h)

/-- C4 (message classification).  For a readable client whose read returns a
positive count n (the bytes got, 1 <= n <= MAX_BUFFER, n < 6 and n = MAX_BUFFER
included), whatever the memory at the buffer held before (bytes left over from
an earlier, longer message included): when n >= 6 and the first six bytes are
"/nick " the turn renames the client and writes to nobody; in every other case
the turn leaves the registry as it is and sends the message to the other
clients.  The turn is the one with the terminator store as the source writes
it. -/
theorem classification_of_every_read (ready : Int → Bool) (pending : Int → Pending)
    (clients : List Client) (it : Nat) (c : Client) (mem got : List Nat)
    (hc : clients[it]? = some c) (hr : ready c.clientSocket = true)
    (hgot : got = readBytes pending c.clientSocket)
    (hpos : 0 < readCount pending c.clientSocket)
    (hmem : MAX_BUFFER < mem.length) :
    readCount pending c.clientSocket = (got.length : Int) ∧ got.length ≤ MAX_BUFFER
    ∧ ((6 ≤ got.length ∧ got.take 6 = NICK_CMD) →
        visitUnchecked ready pending clients it mem
          = .ok (clients.set it
              (c.setNick (strip ((got.takeWhile (fun b => b != 0)).drop 6))),
              it + 1, got ++ 0 :: mem.drop (got.length + 1),
              [Event.read c.clientSocket]))
    ∧ (¬ (6 ≤ got.length ∧ got.take 6 = NICK_CMD) →
        visitUnchecked ready pending clients it mem
          = .ok (clients, it + 1, got ++ 0 :: mem.drop (got.length + 1),
              Event.read c.clientSocket :: sendMsgToClients clients c.clientSocket
                (c.nick ++ SEP ++ got.takeWhile (fun b => b != 0)))) := by
  have hex : ∃ data, pending c.clientSocket = .bytes data := by
    cases hp : pending c.clientSocket with
    | error => simp [readCount, hp] at hpos
    | bytes data => exact ⟨data, rfl⟩
  obtain ⟨data, hp⟩ := hex
  have hg : got = data.take MAX_BUFFER := by rw [hgot]; simp [readBytes, hp]
  have hcount : readCount pending c.clientSocket = (got.length : Int) := by
    rw [hg]; simp [readCount, hp]
  have hpos' : data ≠ [] := by
    intro hnil
    rw [hcount, hg, hnil] at hpos
    simp at hpos
  have hv := visitUnchecked_message ready pending clients it c mem data hc hr hp hpos' hmem
  rw [← hg] at hv
  refine ⟨hcount, ?_, ?_, ?_⟩
  · rw [hg, List.length_take]; omega
  · intro h
    rw [hv, processMessage_rename clients it c _ hc ((nick_prefix_takeWhile_iff got).2 h)]
    rfl
  · intro h
    rw [hv, processMessage_chat clients it c _ hc
      (fun hpre => h ((nick_prefix_takeWhile_iff got).1 hpre))]
    rfl

/-- Witness of C4 at the largest read: the client on socket 4 sends 1024 bytes
"a" into a zeroed buffer; the message is a chat line of those 1024 bytes and
is written to the client on socket 5. -/
theorem classification_of_every_read_witness :
    visitUnchecked (fun _ => true) (fun _ => .bytes (List.replicate 1024 97))
        [Client.new 4, Client.new 5] 0 (List.replicate 1025 0)
      = .ok ([Client.new 4, Client.new 5], 1, List.replicate 1024 97 ++ [0],
          [Event.read 4, Event.write 5 (text "User:4 > " ++ List.replicate 1024 97)]) := by
  have hgot : List.replicate 1024 97
      = readBytes (fun _ => Pending.bytes (List.replicate 1024 97)) (Client.new 4).clientSocket :=
    (List.take_of_length_le (full_queue_length 97 |> fun h => by
      rw [List.length_replicate] at h ⊢; exact h)).symm
  have hpos : 0 < readCount (fun _ => Pending.bytes (List.replicate 1024 97))
      (Client.new 4).clientSocket := by
    show (0 : Int) < ((List.take MAX_BUFFER (List.replicate 1024 97)).length : Int)
    rw [List.length_take, List.length_replicate]
    decide
  have hchat : ¬ (6 ≤ (List.replicate 1024 97).length
      ∧ (List.replicate 1024 97).take 6 = NICK_CMD) := by
    rintro ⟨_, h⟩
    rw [List.take_replicate] at h
    revert h
    decide
  have h := (classification_of_every_read (fun _ => true)
    (fun _ => .bytes (List.replicate 1024 97)) [Client.new 4, Client.new 5] 0 (Client.new 4)
    (List.replicate 1025 0) (List.replicate 1024 97) rfl rfl hgot hpos
    (by rw [List.length_replicate]; decide)).2.2.2 hchat
  have hnn : NoNul ((Client.new 4).nick ++ SEP ++ List.replicate 1024 97) := by
    refine noNul_append (noNul_append (noNul_new 4) noNul_SEP) ?_
    intro b hb
    rw [List.eq_of_mem_replicate hb]
    decide
  have hdrop : (List.replicate 1025 0).drop ((List.replicate 1024 97).length + 1) = [] :=
    List.drop_of_length_le (by rw [List.length_replicate, List.length_replicate])
  have hnick : (Client.new 4).nick ++ SEP = text "User:4 > " := by decide
  have hrep : NoNul (List.replicate 1024 97) := by
    intro b hb
    rw [List.eq_of_mem_replicate hb]
    decide
  rw [h, takeWhile_noNul (List.replicate 1024 97) hrep, sendMsgToClients_eq,
    takeWhile_noNul _ hnn, hdrop, hnick]
  rfl

/-- C5 (disconnect reclamation, removal-safe traversal).  For every registry
with pairwise distinct sockets, every ready set and every result of the reads
(reads that fill the buffer included), a pass with the terminator store as the
source writes it ends without fault; it reads each readable client once and no
other client, in registry order; it closes exactly the readable clients whose
read returned no byte; the registry afterwards holds, in the original order,
the clients that were not readable or whose read returned a positive count,
each unchanged or renamed by its own command; and after the close of a socket
no write to that socket follows. -/
theorem pass_removal_safe_for_every_read (ready : Int → Bool) (pending : Int → Pending)
    (clients : List Client) (mem : List Nat)
    (hnd : (clients.map Client.clientSocket).Nodup) (hmem : MAX_BUFFER < mem.length) :
    ∃ mem' events,
      passUnchecked ready pending clients mem
        = .ok (clients.filterMap (survivor ready pending), mem', events)
      ∧ events.filterMap readFd
          = (clients.filter (fun c => ready c.clientSocket)).map Client.clientSocket
      ∧ (∀ c ∈ clients, ready c.clientSocket = true →
          (events.filterMap readFd).count c.clientSocket = 1)
      ∧ (∀ c ∈ clients, ready c.clientSocket = false →
          Event.read c.clientSocket ∉ events)
      ∧ events.filterMap closeFd
          = (clients.filter (fun c => ready c.clientSocket
              && decide (readCount pending c.clientSocket ≤ 0))).map Client.clientSocket
      ∧ (clients.filterMap (survivor ready pending)).map Client.clientSocket
          = (clients.filter (fun c => !ready c.clientSocket
              || decide (0 < readCount pending c.clientSocket))).map Client.clientSocket
      ∧ (∀ c' ∈ clients.filterMap (survivor ready pending), ∃ c ∈ clients,
          c'.clientSocket = c.clientSocket
          ∧ (c' = c ∨ (ready c.clientSocket = true
              ∧ NICK_CMD <+: (readBytes pending c.clientSocket).takeWhile (fun b => b != 0)
              ∧ c'.nick = strip
                  (((readBytes pending c.clientSocket).takeWhile (fun b => b != 0)).drop 6))))
      ∧ (∀ t₁ t₂ fd, events = t₁ ++ Event.close fd :: t₂ →
          ∀ data, Event.write fd data ∉ t₂) := by
  obtain ⟨mem', events, hpass, _, hread, hclose, _, hpair⟩ :=
    passUnchecked_spec ready pending clients mem hmem
  refine ⟨mem', events, hpass, hread, ?_, ?_, ?_, survivors_sockets _ _ _, ?_, ?_⟩
  · intro c hc hr
    rw [hread]
    have hsub : ((clients.filter (fun c => ready c.clientSocket)).map
        Client.clientSocket).Nodup :=
      hnd.sublist ((List.filter_sublist clients).map _)
    exact List.count_eq_one_of_mem hsub
      (List.mem_map_of_mem _ (List.mem_filter.2 ⟨hc, hr⟩))
  · intro c hc hr hmem'
    have h1 : c.clientSocket ∈ events.filterMap readFd :=
      List.mem_filterMap.2 ⟨_, hmem', rfl⟩
    rw [hread] at h1
    rcases List.mem_map.1 h1 with ⟨o, ho, hsock⟩
    rw [List.mem_filter] at ho
    -- o and c share a socket, so they stand at the same place of the registry
    have hoc : o = c := by
      have hinj := List.inj_on_of_nodup_map hnd
      exact hinj ho.1 hc hsock
    rw [hoc, hr] at ho
    exact absurd ho.2 (by simp)
  · rw [hclose]
    congr 1
    apply List.filter_congr
    intro c _
    unfold survivor
    by_cases hr : ready c.clientSocket = true
    · by_cases h0 : readCount pending c.clientSocket ≤ 0
      · simp [hr, h0]
      · simp only [hr, if_true, h0, if_false]
        split <;> simp [h0]
    · simp [hr]
  · intro c' hc'
    rcases List.mem_filterMap.1 hc' with ⟨c, hc, hs⟩
    refine ⟨c, hc, survivor_socket ready pending c c' hs, ?_⟩
    unfold survivor at hs
    split at hs
    · rename_i hr
      split at hs
      · cases hs
      · simp only at hs
        split at hs
        · rename_i hren
          cases hs
          exact Or.inr ⟨hr, hren, rfl⟩
        · cases hs; exact Or.inl rfl
    · cases hs; exact Or.inl rfl
  · intro t₁ t₂ fd hsplit
    exact no_write_after_close_split events t₁ t₂ fd (hpair hnd) hsplit

/-- Witness of C5 with a removal in front of a read that fills the buffer: the
client on socket 4 has left, the client on socket 5 sends 1024 bytes "a", the
client on socket 6 is not readable.  Sockets 4 and 5 are read once, socket 4
is closed and erased, and the clients on sockets 5 and 6 stay. -/
theorem pass_removal_safe_for_every_read_witness :
    ∃ mem' events,
      passUnchecked (fun fd => fd == 4 || fd == 5)
          (fun fd => if fd = 4 then .bytes [] else .bytes (List.replicate 1024 97))
          [Client.new 4, Client.new 5, Client.new 6] (List.replicate 1025 0)
        = .ok ([Client.new 5, Client.new 6], mem', events)
      ∧ events.filterMap readFd = [4, 5]
      ∧ events.filterMap closeFd = [4] := by
  obtain ⟨mem', events, hpass, hread, _, _, hclose, _, _, _⟩ :=
    pass_removal_safe_for_every_read (fun fd => fd == 4 || fd == 5)
      (fun fd => if fd = 4 then .bytes [] else .bytes (List.replicate 1024 97))
      [Client.new 4, Client.new 5, Client.new 6] (List.replicate 1025 0)
      (by decide) (by rw [List.length_replicate]; decide)
  have hcount : readCount
      (fun fd => if fd = 4 then Pending.bytes [] else Pending.bytes (List.replicate 1024 97))
      (Client.new 5).clientSocket = 1024 := by
    show ((List.take MAX_BUFFER (List.replicate 1024 97)).length : Int) = 1024
    rw [List.length_take, List.length_replicate]
    rfl
  have hbytes : readBytes
      (fun fd => if fd = 4 then Pending.bytes [] else Pending.bytes (List.replicate 1024 97))
      (Client.new 5).clientSocket = List.replicate 1024 97 :=
    List.take_of_length_le (by rw [List.length_replicate]; exact Nat.le_refl _)
  have hchat : ¬ NICK_CMD <+: (List.replicate 1024 97).takeWhile (fun b => b != 0) := by
    rw [nick_prefix_takeWhile_iff]
    rintro ⟨_, h⟩
    rw [List.take_replicate] at h
    revert h
    decide
  have h4 : survivor (fun fd => fd == 4 || fd == 5)
      (fun fd => if fd = 4 then Pending.bytes [] else Pending.bytes (List.replicate 1024 97))
      (Client.new 4) = none := by decide
  have h5 : survivor (fun fd => fd == 4 || fd == 5)
      (fun fd => if fd = 4 then Pending.bytes [] else Pending.bytes (List.replicate 1024 97))
      (Client.new 5) = some (Client.new 5) := by
    have hr : (fun fd : Int => fd == 4 || fd == 5) (Client.new 5).clientSocket = true := by
      decide
    unfold survivor
    simp only [hr, if_true, hcount, hbytes, hchat, if_false]
    rfl
  have h6 : survivor (fun fd => fd == 4 || fd == 5)
      (fun fd => if fd = 4 then Pending.bytes [] else Pending.bytes (List.replicate 1024 97))
      (Client.new 6) = some (Client.new 6) := by decide
  refine ⟨mem', events, ?_, ?_, ?_⟩
  · rw [hpass]
    simp only [List.filterMap_cons, List.filterMap_nil, h4, h5, h6]
  · rw [hread]; decide
  · rw [hclose]
    simp only [List.filter_cons, List.filter_nil, hcount]
    decide

/-- C6, as stated, fails on smallchat_server.cc: accept returns socket 4 and
the write of the welcome text returns -1; the registry stays empty and socket
4 is closed. -/
theorem accept_cc_drops_client_on_failed_welcome :
    ChatManager.acceptClient { serverSocket_ := 3, maxClient_ := -1, clients_ := [] } 4 (-1)
      = ({ serverSocket_ := 3, maxClient_ := 4, clients_ := [] },
         [Event.write 4 ChatManager.welcome_msg, Event.close 4]) := by
  decide

/-- C6 (accept with failed welcome write), amended.  After a successful accept
(the result is not -1): smallchat_server.cpp appends a new client for that
socket to the registry, whatever the write of the welcome text returned, and
closes nothing; smallchat_server.cc does the same when the write did not
return -1, and when it returned -1 leaves the registry as it was and closes
the new socket. -/
theorem accept_registers_unless_cc_write_fails :
    (∀ (m : ChatManagement) (accepted : Int), accepted ≠ -1 →
      (m.acceptClient accepted).1.clients = m.clients ++ [Client.new accepted]
      ∧ (m.acceptClient accepted).1.clients.length = m.clients.length + 1
      ∧ (m.acceptClient accepted).2
          = [Event.write accepted ChatManagement.welcome_msg])
    ∧ (∀ (m : ChatManager) (accepted written : Int), accepted ≠ -1 → written ≠ -1 →
      (m.acceptClient accepted written).1.clients_ = m.clients_ ++ [Client.new accepted]
      ∧ (m.acceptClient accepted written).1.clients_.length = m.clients_.length + 1
      ∧ (m.acceptClient accepted written).2
          = [Event.write accepted ChatManager.welcome_msg])
    ∧ (∀ (m : ChatManager) (accepted : Int), accepted ≠ -1 →
      (m.acceptClient accepted (-1)).1.clients_ = m.clients_
      ∧ (m.acceptClient accepted (-1)).2
          = [Event.write accepted ChatManager.welcome_msg, Event.close accepted]) := by
  have hcpp : ∀ c : Client, c.writeTo (c_str ChatManagement.welcome_msg)
      = Event.write c.clientSocket ChatManagement.welcome_msg :=
    fun c => writeTo_c_str_noNul c _ (by decide)
  have hcc : ∀ c : Client, c.writeTo (c_str ChatManager.welcome_msg)
      = Event.write c.clientSocket ChatManager.welcome_msg :=
    fun c => writeTo_c_str_noNul c _ (by decide)
  refine ⟨?_, ?_, ?_⟩
  · intro m accepted ha
    unfold ChatManagement.acceptClient
    simp only [ha, if_false, hcpp]
    refine ⟨?_, ?_, rfl⟩
    · split <;> rfl
    · split <;> simp
  · intro m accepted written ha hw
    unfold ChatManager.acceptClient
    simp only [ha, hw, if_false, hcc]
    refine ⟨?_, ?_, rfl⟩
    · split <;> rfl
    · split <;> simp
  · intro m accepted ha
    unfold ChatManager.acceptClient
    simp only [ha, if_false, if_true, hcc]
    refine ⟨?_, rfl⟩
    split <;> rfl

/-- C8 (welcome text).  smallchat_server.cpp writes, once per successful
accept, the 59 bytes "Welcome to Simple Chat! Use /nick <nick> to set your
nick.\n"; smallchat_server.cc writes 60 bytes that end in "nick_.\n" (an
underscore, byte 95, before the full stop), so its text is not the welcome
text. -/
theorem welcome_text_cc_has_underscore :
    (ChatManagement.acceptClient (ChatManagement.mk 3 (-1) 0 []) 4).2
      = [Event.write 4 (text "Welcome to Simple Chat! Use /nick <nick> to set your nick.\n")]
    ∧ (ChatManager.acceptClient (ChatManager.mk 3 (-1) []) 4 60).2
      = [Event.write 4 (text "Welcome to Simple Chat! Use /nick <nick> to set your nick_.\n")]
    ∧ (ChatManager.acceptClient (ChatManager.mk 3 (-1) []) 4 60).2
      ≠ [Event.write 4 (text "Welcome to Simple Chat! Use /nick <nick> to set your nick.\n")]
    ∧ ChatManagement.welcome_msg.length = 59
    ∧ ChatManager.welcome_msg.length = 60
    ∧ ChatManager.welcome_msg
      = ChatManagement.welcome_msg.take 57 ++ [95] ++ ChatManagement.welcome_msg.drop 57 := by
  decide

/-- C10 (terminator store).  On a buffer of MAX_BUFFER bytes the store of the
terminator at index n succeeds for every n with 1 <= n < MAX_BUFFER and fails
at n = MAX_BUFFER; and MAX_BUFFER is a count the read can return, since the
read is given the whole size of the buffer. -/
theorem terminator_store_out_of_bounds_at_full_read :
    (∀ (buffer : List Nat) (n : Nat), buffer.length = MAX_BUFFER → 1 ≤ n → n < MAX_BUFFER →
      store buffer (n : Int) 0 = .ok (buffer.set n 0))
    ∧ (∀ (buffer : List Nat), buffer.length = MAX_BUFFER →
      store buffer (1024 : Int) 0 = .error .outOfBounds)
    ∧ ((Client.new 4).readFrom (fun _ => .bytes (List.replicate 1024 97))
        (List.replicate 1024 0) MAX_BUFFER).1 = 1024
    ∧ visit (fun _ => true) (fun _ => .bytes (List.replicate 1024 97))
        [Client.new 4] 0 (List.replicate 1024 0) = .error .outOfBounds := by
  refine ⟨?_, ?_, ?_, ?_⟩
  · intro buffer n hbuf h1 hn
    unfold store
    have h0 : (0 : Int) ≤ (n : Int) := by omega
    have h2 : n < buffer.length := by omega
    simp only [Int.toNat_ofNat, h0, h2, and_self, if_true]
  · intro buffer hbuf
    unfold store
    have : ¬ ((0 : Int) ≤ 1024 ∧ (1024 : Int).toNat < buffer.length) := by
      rw [hbuf]
      unfold MAX_BUFFER
      intro h
      have h2 := h.2
      simp at h2
    simp only [this, if_false]
  · unfold Client.readFrom
    simp only [MAX_BUFFER, List.take_replicate, List.length_replicate]
    rfl
  · exact visit_full _ _ _ 0 (Client.new 4) _ (List.replicate 1024 97) rfl rfl rfl
      (full_queue_length 97) (zero_buffer_length 0)

end SmallChat
